import Mathlib

/-!
Verification development for the periodontal patient-records program
(core.py, application.py, storage.py).

Modelling conventions (shallow embedding of the Python source):

* Python runtime values occurring in record dictionaries are modelled by
  the inductive `PyVal`.  Dates written in `DATE_FORMAT` (YYYYMMDD) are
  always canonical 8-digit strings, on which lexicographic string order,
  numeric order and chronological order all coincide, so both a
  `datetime.date` object and its `YYYYMMDD` string form are carried as the
  underlying numeral (`PyVal.date n` resp. `PyVal.dstr n`).  The two are
  distinct constructors because the source distinguishes them: comparing a
  string against a date with `==` yields `False` in Python, and ordering a
  string against a date raises `TypeError`.
* Python dictionaries are association lists that keep insertion order;
  `aset` updates an existing key in place and appends a fresh key at the
  end, exactly like CPython assignment into a dict.
* Fallible code (KeyError, ValueError, TypeError, AttributeError, the
  NameError from the unbound `exam` local) is modelled in
  `Except String`; the string names the Python exception class.
* `log.debug` / `log.error` calls only write to the log and never raise,
  so they have no counterpart in the model.
-/

inductive PyVal where
  | none
  | bool (b : Bool)
  | int (i : Int)
  | str (s : String)
  | dstr (n : Nat)
  | date (n : Nat)
deriving DecidableEq

/-- Python `==` on the values above.  For these types Python returns
`False` on a type mismatch (the `bool`/`int` numeric coercion is never
exercised by the code under study). -/
def pyEq : PyVal → PyVal → Bool
  | .none, .none => true
  | .bool a, .bool b => a == b
  | .int a, .int b => a == b
  | .str a, .str b => a == b
  | .dstr a, .dstr b => a == b
  | .date a, .date b => a == b
  | _, _ => false

/-- Python truthiness of the values above. -/
def pyTruthy : PyVal → Bool
  | .none => false
  | .bool b => b
  | .int i => i != 0
  | .str s => s ≠ ""
  | .dstr _ => true
  | .date _ => true

abbrev Dict := List (String × PyVal)

/-- First binding of a key in an association list (Python dict lookup). -/
def alookup {α : Type} : List (String × α) → String → Option α
  | [], _ => Option.none
  | (k, v) :: rest, key => if k = key then some v else alookup rest key

def hasKey {α : Type} (d : List (String × α)) (k : String) : Bool :=
  (alookup d k).isSome

/-- Python `d[k] = v`: overwrite in place if the key exists, else append. -/
def aset {α : Type} : List (String × α) → String → α → List (String × α)
  | [], k, v => [(k, v)]
  | (k', v') :: rest, k, v =>
      if k' = k then (k', v) :: rest else (k', v') :: aset rest k v

/-- Python `d.pop(k)`: drop the first binding of the key.  At every call
site of the source the key is present, so the missing-key `KeyError` is
unreachable and the function is total. -/
def aremove {α : Type} : List (String × α) → String → List (String × α)
  | [], _ => []
  | (k', v') :: rest, k =>
      if k' = k then rest else (k', v') :: aremove rest k

/-- Python `d[k] += 1` on a counter dict: `KeyError` when the key is
absent. -/
def aincr : List (String × Nat) → String → Except String (List (String × Nat))
  | [], k => .error ("KeyError: " ++ k)
  | (k', v) :: rest, k =>
      if k' = k then .ok ((k', v + 1) :: rest)
      else (aincr rest k).map (fun r => (k', v) :: r)

/-- Python `d.get(k)` with its default of `None`. -/
def dGet (d : Dict) (k : String) : PyVal :=
  (alookup d k).getD .none

/-- Python `d[k]`: `KeyError` when the key is absent. -/
def dGetE (d : Dict) (k : String) : Except String PyVal :=
  match alookup d k with
  | some v => .ok v
  | Option.none => .error ("KeyError: " ++ k)

/-- Python `{**a, **b}`: start from `a` and assign every binding of `b`
in order. -/
def dmerge (a b : Dict) : Dict :=
  b.foldl (fun acc kv => aset acc kv.1 kv.2) a

/-! Dates.  `DATE_FORMAT` (YYYYMMDD); `datetime.strptime` validates the
calendar date.  A date is carried as its 8-digit numeral. -/

def isLeap (y : Nat) : Bool :=
  y % 4 == 0 && (y % 100 != 0 || y % 400 == 0)

def daysInMonth (y m : Nat) : Nat :=
  if m == 2 then (if isLeap y then 29 else 28)
  else if m == 4 || m == 6 || m == 9 || m == 11 then 30
  else 31

/-- The numeral is a canonical 8-digit `YYYYMMDD` string denoting a real
calendar date. -/
def validDate (n : Nat) : Bool :=
  let y := n / 10000
  let m := n / 100 % 100
  let d := n % 100
  10000000 ≤ n && n < 100000000 && 1 ≤ m && m ≤ 12 && 1 ≤ d &&
    d ≤ daysInMonth y m

/-- Python `datetime.strptime(value, DATE_FORMAT).date()`: succeeds on a
valid date string, raises `ValueError` on a malformed string and
`TypeError` on a non-string argument. -/
def strpdate (v : PyVal) : Except String Nat :=
  match v with
  | .dstr n => if validDate n then .ok n else .error "ValueError"
  | _ => .error "TypeError"

/-- Python `date_1 < appointment.date` where `date_1` is a `date` object:
raises `TypeError` once the attribute has been rewritten to a string. -/
def pyLtDateL (d : Nat) (v : PyVal) : Except String Bool :=
  match v with
  | .date n => .ok (d < n)
  | _ => .error "TypeError"

/-- Python `appointment.date < date_2` where `date_2` is a `date` object. -/
def pyLtDateR (v : PyVal) (d : Nat) : Except String Bool :=
  match v with
  | .date n => .ok (n < d)
  | _ => .error "TypeError"

/-! The four `_Appointment` subclasses of core.py. -/

inductive Variant where
  | periodicExam
  | limitedExam
  | comprehensiveExam
  | surgery
deriving DecidableEq

def Variant.name : Variant → String
  | .periodicExam => "PeriodicExam"
  | .limitedExam => "LimitedExam"
  | .comprehensiveExam => "ComprehensiveExam"
  | .surgery => "Surgery"

/-- The variant-specific attributes, in the order the constructors assign
them (which is the `__dict__` insertion order after `date`, `asa`,
`note`). -/
def Variant.flagNames : Variant → List String
  | .periodicExam => []
  | .limitedExam =>
      ["abscess", "crown_lengthening", "cv_exam", "extraction",
       "frenectomy", "fracture", "implant", "oral_path", "periodontitis",
       "peri_implantitis", "postop", "return_", "recession",
       "re_evaluation", "miscellaneous"]
  | .comprehensiveExam =>
      ["periodontitis", "executive_health", "recession", "hygiene",
       "return_", "oncology", "implant", "oral_path"]
  | .surgery =>
      ["biopsy", "extractions", "uncovery", "implant",
       "crown_lengthening", "soft_tissue", "perio", "miscellaneous",
       "sinus", "peri_implantitis"]

/-- An appointment object.  `date` is `PyVal.date n` as built by
`__init__` and becomes `PyVal.dstr n` once `to_dict` has run, because
`to_dict` assigns through the aliased `self.__dict__`; `hasTypeAttr`
records whether that same aliasing has added the `_type` attribute. -/
structure Appt where
  variant : Variant
  date : PyVal
  asa : PyVal
  note : PyVal
  flags : List (String × PyVal)
  hasTypeAttr : Bool
deriving DecidableEq

/-- Constructor of a variant from a record dictionary.  `exam_dict["date"]`
raises `KeyError` when absent; `strptime` raises on a malformed date.
`asa`, `note` and every flag are read with `.get`, so a missing field
becomes `None` (the `No ASA number.` / `No note.` defaults of
`_Appointment.__init__` are always bypassed). -/
def mkAppt (v : Variant) (d : Dict) : Except String Appt := do
  let dv ← dGetE d "date"
  let n ← strpdate dv
  .ok { variant := v, date := .date n, asa := dGet d "asa",
        note := dGet d "note",
        flags := v.flagNames.map (fun f => (f, dGet d f)),
        hasTypeAttr := false }

/-- The `if apt["_type"] == ... elif ...` dispatch shared by
`Application.add_appointment`, `Application.modify_appointment` and
`Repo._add_record`.  A missing key is a `KeyError`; an unrecognized tag
only logs, and the `exam` local is then unbound, which surfaces as a
`NameError` at its first use. -/
def mkApptFromRecord (d : Dict) : Except String Appt := do
  let t ← dGetE d "_type"
  match t with
  | .str "PeriodicExam" => mkAppt .periodicExam d
  | .str "LimitedExam" => mkAppt .limitedExam d
  | .str "ComprehensiveExam" => mkAppt .comprehensiveExam d
  | .str "Surgery" => mkAppt .surgery d
  | _ => .error "NameError"

/-- The appointment's `__dict__`, in attribute insertion order. -/
def apptAttrs (a : Appt) : Dict :=
  [("date", a.date), ("asa", a.asa), ("note", a.note)] ++ a.flags ++
    (if a.hasTypeAttr then [("_type", .str a.variant.name)] else [])

/-- Model of `_Appointment.to_dict` (and the subclass `to_dict`s, whose
`record.update(self.__dict__)` is a no-op on the aliased dict): returns a
shallow copy of `__dict__` after assigning the formatted date string and
the class name into `record["date"]` and `record["_type"]` through the
alias.
When the date attribute is already a string, `strftime` raises
`AttributeError`.  The mutated object is returned alongside the record. -/
def Appt.to_dict (a : Appt) : Except String (Dict × Appt) :=
  match a.date with
  | .date n =>
      let a2 : Appt :=
        { a with date := .dstr n, hasTypeAttr := true }
      .ok (apptAttrs a2, a2)
  | _ => .error "AttributeError"

/-- Model of `to_stats_dict`: the `to_dict` record with `note` and `asa` popped. -/
def Appt.to_stats_dict (a : Appt) : Except String (Dict × Appt) :=
  match a.to_dict with
  | .ok (r, a2) => .ok (aremove (aremove r "note") "asa", a2)
  | .error e => .error e

/-- The operand shapes `__eq__` of the appointment classes dispatches
on: a `datetime.date` object, or any other object carrying `date` and
`__class__` attributes (another appointment). -/
inductive ApptArg where
  | appt (b : Appt)
  | date (n : Nat)

/-- Appointment `__eq__`: against a bare date only the dates are
compared; otherwise the dates and the class names. -/
def Appt.eq (a : Appt) : ApptArg → Bool
  | .date n => pyEq a.date (.date n)
  | .appt b => pyEq a.date b.date && a.variant.name == b.variant.name

/-! `Patient` of core.py. -/

structure Patient where
  mrn : String
  first : String
  last : String
  birthday : Nat
  sex : String
  appointments : List Appt
deriving DecidableEq

/-- Model of `Patient.__init__`: reads `mrn`, `first`, `last` (`KeyError` when
absent), parses `birthday`, then reads `sex`.  The program only ever
stores strings in these fields (spec section 3), which the model's typing
makes explicit. -/
def Patient.ofRecord (r : Dict) : Except String Patient := do
  let m ← dGetE r "mrn"
  let f ← dGetE r "first"
  let l ← dGetE r "last"
  let b ← dGetE r "birthday"
  let n ← strpdate b
  let s ← dGetE r "sex"
  match m, f, l, s with
  | .str ms, .str fs, .str ls, .str ss =>
      .ok { mrn := ms, first := fs, last := ls, birthday := n,
            sex := ss, appointments := [] }
  | _, _, _, _ => .error "TypeError"

/-- Model of `Patient.to_dict`: a copy of `__dict__` with `birthday` formatted
back to `YYYYMMDD` and `appointments` popped.  The copy is taken first,
so unlike the appointment case nothing is mutated. -/
def Patient.to_dict (p : Patient) : Dict :=
  [("mrn", .str p.mrn), ("first", .str p.first), ("last", .str p.last),
   ("birthday", .dstr p.birthday), ("sex", .str p.sex)]

/-- The operand shapes `Patient.__eq__` dispatches on. -/
inductive PatientArg where
  | pat (q : Patient)
  | dict (d : Dict)
  | str (s : String)

/-- Model of `Patient.__eq__`: a dict operand is subscripted with the `mrn` key
(`KeyError` when absent), a string operand is compared directly, anything
else has its `mrn` attribute read. -/
def Patient.eq (p : Patient) : PatientArg → Except String Bool
  | .dict d => do
      let v ← dGetE d "mrn"
      .ok (pyEq (.str p.mrn) v)
  | .str s => .ok (p.mrn == s)
  | .pat q => .ok (p.mrn == q.mrn)

/-! Repository (storage.py) and the application operations sharing its
upsert-by-mrn algorithm. -/

/-- The scan `for patient in self.patients: if patient == apt: ...` of
`Repo._add_record` / `Application.add_appointment`: append the exam to
the first patient whose `mrn` matches the record and stop; `none` when no
patient matches. -/
def findAdd (exam : Appt) (apt : Dict) :
    List Patient → Except String (Option (List Patient))
  | [] => .ok Option.none
  | p :: rest => do
      let m ← p.eq (.dict apt)
      if m then
        .ok (some ({ p with appointments := p.appointments ++ [exam] } :: rest))
      else
        (findAdd exam apt rest).map (Option.map (p :: ·))

/-- Shared upsert: `Repo._add_record` (storage.py) and `Application.add_appointment`
(application.py) run the identical upsert: construct the exam, append it
to the first `mrn`-matching patient, else instantiate a new `Patient`
from the record and append it to the collection. -/
def addRecord (ps : List Patient) (apt : Dict) : Except String (List Patient) := do
  let exam ← mkApptFromRecord apt
  match ← findAdd exam apt ps with
  | some ps2 => .ok ps2
  | Option.none => do
      let newP ← Patient.ofRecord apt
      .ok (ps ++ [{ newP with appointments := [exam] }])

def add_appointment (ps : List Patient) (apt : Dict) :
    Except String (List Patient) :=
  addRecord ps apt

/-- The inner loop of `Repo.save`: one flat record `{**patient_info,
**appointment_info}` per appointment; `to_dict` mutates each appointment
as a side effect, so the updated appointment objects are returned too. -/
def saveAppts (pinfo : Dict) :
    List Appt → Except String (List Dict × List Appt)
  | [] => .ok ([], [])
  | a :: rest => do
      let (rcd, a2) ← a.to_dict
      let (recs, rest2) ← saveAppts pinfo rest
      .ok (dmerge pinfo rcd :: recs, a2 :: rest2)

/-- Model of `Repo.save` (denormalize): the flat record list in patient /
appointment traversal order, together with the collection as mutated by
the `to_dict` calls. -/
def Repo.save : List Patient → Except String (List Dict × List Patient)
  | [] => .ok ([], [])
  | p :: rest => do
      let (recs, apts2) ← saveAppts p.to_dict p.appointments
      let (recs2, rest2) ← Repo.save rest
      .ok (recs ++ recs2, { p with appointments := apts2 } :: rest2)

/-- Model of `Repo.load` / `Repo._load_obj` (normalize): fold every flat record
through the upsert, starting from the empty collection. -/
def Repo.load (records : List Dict) : Except String (List Patient) :=
  records.foldlM addRecord []

/-! `Application.modify_appointment`. -/

/-- Python `patient.appointments.remove(target)`: drop the first element
comparing `==` to the target (appointment equality).  The source would
raise `ValueError` on no match, but it only calls `remove` on the element
the enclosing loop just found, so the function is total. -/
def pyListRemove : List Appt → Appt → List Appt
  | [], _ => []
  | x :: rest, target =>
      if x.eq (.appt target) then rest else x :: pyListRemove rest target

/-- The inner loop of `modify_appointment`: find the first appointment
equal (variant and date) to the new exam, remove it, append the exam and
return immediately. -/
def modApptScanAppts (exam : Appt) (l : List Appt) : Option (List Appt) :=
  match l.find? (fun a => a.eq (.appt exam)) with
  | some a => some (pyListRemove l a ++ [exam])
  | Option.none => Option.none

/-- The outer loop of `modify_appointment`: for each patient matching the
record's `mrn`, try the inner replacement; on success return at once, and
otherwise keep scanning the remaining patients. -/
def modApptScan (exam : Appt) (apt : Dict) :
    List Patient → Except String (Option (List Patient))
  | [] => .ok Option.none
  | p :: rest => do
      let m ← p.eq (.dict apt)
      if m then
        match modApptScanAppts exam p.appointments with
        | some l2 => .ok (some ({ p with appointments := l2 } :: rest))
        | Option.none => (modApptScan exam apt rest).map (Option.map (p :: ·))
      else
        (modApptScan exam apt rest).map (Option.map (p :: ·))

/-- Model of `Application.modify_appointment`: the Boolean reports whether a
replacement happened (the source returns an update message then, and logs
"Patient not found" and returns `None` otherwise, leaving the collection
untouched). -/
def modify_appointment (ps : List Patient) (apt : Dict) :
    Except String (List Patient × Bool) := do
  let exam ← mkApptFromRecord apt
  match ← modApptScan exam apt ps with
  | some ps2 => .ok (ps2, true)
  | Option.none => .ok (ps, false)

/-! `Application.modify_patient`.  The source iterates over
`self.patients` while removing and appending to it, and rebinds the
`person` parameter from the argument dict to the replacement `Patient`
object, so the loop is modelled index by index exactly as CPython's list
iterator executes it. -/

/-- The `person` local of `modify_patient`: initially the record dict,
rebound to the replacement `Patient` after the first match. -/
inductive PersonArg where
  | dict (d : Dict)
  | pat (q : Patient)

def personEq (p : Patient) : PersonArg → Except String Bool
  | .dict d => p.eq (.dict d)
  | .pat q => p.eq (.pat q)

/-- The diff loop `for k, v in original.items(): if v != person[k]`: the
comparisons themselves never raise, but subscripting raises `KeyError`
for a key the argument record lacks.  Only the audit log consumes the
diff, so the result is unit. -/
def diffKeysOk (orig : Dict) (d : Dict) : Except String Unit :=
  match orig with
  | [] => .ok ()
  | (k, _) :: rest => do
      let _ ← dGetE d k
      diffKeysOk rest d

/-- Python `self.patients.remove(patient)`: drop the first element whose
`__eq__` (mrn comparison) accepts the target; total for the same reason
as `pyListRemove`. -/
def removeFirstPatientEq : List Patient → Patient → List Patient
  | [], _ => []
  | x :: rest, target =>
      if x.mrn == target.mrn then rest else x :: removeFirstPatientEq rest target

/-- One CPython list-iterator step of the `modify_patient` loop at index
`i`.  On a match the replacement patient (carrying the old appointment
collection) is appended, the old one removed, and `person` is rebound;
subscripting the rebound `Patient` in the diff of a later match raises
`TypeError`.  The fuel only bounds the recursion; the list length is
invariant across steps, so `length + 1` steps always suffice. -/
def modPatGo : Nat → Nat → List Patient → PersonArg → Except String (List Patient)
  | 0, _, ps, _ => .ok ps
  | fuel + 1, i, ps, person =>
      match ps[i]? with
      | Option.none => .ok ps
      | some patient => do
          let m ← personEq patient person
          if m then
            match person with
            | .pat _ => .error "TypeError"
            | .dict d => do
                diffKeysOk patient.to_dict d
                let newP ← Patient.ofRecord d
                let newP2 := { newP with appointments := patient.appointments }
                let ps2 := removeFirstPatientEq ps patient ++ [newP2]
                modPatGo fuel (i + 1) ps2 (.pat newP2)
          else
            modPatGo fuel (i + 1) ps person

/-- Model of `Application.modify_patient`.  The leading `type(person) != dict`
check only logs, so the model takes the record dict directly. -/
def modify_patient (ps : List Patient) (person : Dict) :
    Except String (List Patient) :=
  modPatGo (ps.length + 1) 0 ps (.dict person)

/-- Model of `Application.find_patient`: an integer argument is converted with
`str`, any other non-string argument only provokes `log.error` (nothing
raises, which is why the body is visibly always `.ok`); then the first
patient whose `mrn` equals the argument is returned, else the not-found
signal `None`. -/
def find_patient (ps : List Patient) (mrn : PyVal) :
    Except String (Option Patient) :=
  let m := match mrn with
    | .int i => PyVal.str (toString i)
    | v => v
  .ok (ps.find? (fun p => pyEq (.str p.mrn) m))

/-! `Application.tally_stats` (the statistics engine). -/

/-- The four tally buckets, in the fixed output order. -/
structure Buckets where
  periodic : List (String × Nat)
  limited : List (String × Nat)
  comprehensive : List (String × Nat)
  surgery : List (String × Nat)
deriving DecidableEq

def initBuckets : Buckets :=
  { periodic := [("PeriodicExam", 0)], limited := [("LimitedExam", 0)],
    comprehensive := [("ComprehensiveExam", 0)], surgery := [("Surgery", 0)] }

/-- The field loop of the `PeriodicExam` / `LimitedExam` branches: the
bucket being filled is also the dict the membership test `if k in ...`
consults, so the `+= 1` arm can never miss its key. -/
def tallyOwn : List (String × Nat) → Dict → Except String (List (String × Nat))
  | own, [] => .ok own
  | own, (k, v) :: rest =>
      if v = PyVal.none then tallyOwn own rest
      else if hasKey own k then do
        let own2 ← aincr own k
        tallyOwn own2 rest
      else if k = "_type" then tallyOwn own rest
      else tallyOwn (aset own k 1) rest

/-- The field loop of the `ComprehensiveExam` / `Surgery` branches: the
source tests membership `if k in limited` against the *limited* bucket
while updating its own bucket, so the `+= 1` arm raises `KeyError` when
the key is tracked in `limited` but absent from the own bucket, and the
assignment arm resets an existing counter to 1. -/
def tallyCross (memb : List (String × Nat)) :
    List (String × Nat) → Dict → Except String (List (String × Nat))
  | own, [] => .ok own
  | own, (k, v) :: rest =>
      if v = PyVal.none then tallyCross memb own rest
      else if hasKey memb k then do
        let own2 ← aincr own k
        tallyCross memb own2 rest
      else if k = "_type" then tallyCross memb own rest
      else tallyCross memb (aset own k 1) rest

/-- One appointment's contribution to the buckets: dispatch on the stats
record's `_type` (subscripted, so `KeyError` when absent; an unmatched
tag falls through all `elif`s and is silently ignored), bump the
variant-name counter, then run the field loop of that branch.  Only the
dispatched variant's own bucket is ever assigned. -/
def tallyStep (b : Buckets) (apt : Dict) : Except String Buckets := do
  let t ← dGetE apt "_type"
  match t with
  | .str "PeriodicExam" => do
      let own ← aincr b.periodic "PeriodicExam"
      let own2 ← tallyOwn own apt
      .ok { b with periodic := own2 }
  | .str "LimitedExam" => do
      let own ← aincr b.limited "LimitedExam"
      let own2 ← tallyOwn own apt
      .ok { b with limited := own2 }
  | .str "ComprehensiveExam" => do
      let own ← aincr b.comprehensive "ComprehensiveExam"
      let own2 ← tallyCross b.limited own apt
      .ok { b with comprehensive := own2 }
  | .str "Surgery" => do
      let own ← aincr b.surgery "Surgery"
      let own2 ← tallyCross b.limited own apt
      .ok { b with surgery := own2 }
  | _ => .ok b

/-- The collection loop of `tally_stats` when no date filter applies:
`to_stats_dict` for every appointment of every patient, in traversal
order, with its mutation of the appointment objects. -/
def statsAll : List Appt → Except String (List Dict × List Appt)
  | [] => .ok ([], [])
  | a :: rest => do
      let (d, a2) ← a.to_stats_dict
      let (ds, rest2) ← statsAll rest
      .ok (d :: ds, a2 :: rest2)

/-- The collection loop when both bounds are given: the chained
comparison `date_1 < appointment.date < date_2` evaluates left to right
and short-circuits, and both ends are strict. -/
def statsFiltered (d1 d2 : Nat) : List Appt → Except String (List Dict × List Appt)
  | [] => .ok ([], [])
  | a :: rest => do
      let c1 ← pyLtDateL d1 a.date
      if c1 then do
        let c2 ← pyLtDateR a.date d2
        if c2 then do
          let (d, a2) ← a.to_stats_dict
          let (ds, rest2) ← statsFiltered d1 d2 rest
          .ok (d :: ds, a2 :: rest2)
        else do
          let (ds, rest2) ← statsFiltered d1 d2 rest
          .ok (ds, a :: rest2)
      else do
        let (ds, rest2) ← statsFiltered d1 d2 rest
        .ok (ds, a :: rest2)

def collectAll : List Patient → Except String (List Dict × List Patient)
  | [] => .ok ([], [])
  | p :: rest => do
      let (ds, apts2) ← statsAll p.appointments
      let (ds2, rest2) ← collectAll rest
      .ok (ds ++ ds2, { p with appointments := apts2 } :: rest2)

def collectFiltered (d1 d2 : Nat) :
    List Patient → Except String (List Dict × List Patient)
  | [] => .ok ([], [])
  | p :: rest => do
      let (ds, apts2) ← statsFiltered d1 d2 p.appointments
      let (ds2, rest2) ← collectFiltered d1 d2 rest
      .ok (ds ++ ds2, { p with appointments := apts2 } :: rest2)

/-- Python truthiness of the optional date arguments in
`if date_1 and date_2`: `None` and the integer 0 are falsy. -/
def optTruthy : Option Nat → Bool
  | Option.none => false
  | some n => n != 0

/-- Model of `Application.tally_stats(date_1, date_2)`.  An integer bound and its
decimal string behave identically (the source converts with `str` before
`strptime`), so a supplied bound is carried as its numeral.  Returns the
four buckets in the fixed order together with the collection as mutated
by the `to_stats_dict` calls. -/
def tally_stats (ps : List Patient) (date_1 date_2 : Option Nat) :
    Except String (List (List (String × Nat)) × List Patient) := do
  if optTruthy date_1 && optTruthy date_2 then do
    let d1 ← strpdate (.dstr (date_1.getD 0))
    let d2 ← strpdate (.dstr (date_2.getD 0))
    let (apts, ps2) ← collectFiltered d1 d2 ps
    let b ← apts.foldlM tallyStep initBuckets
    .ok ([b.periodic, b.limited, b.comprehensive, b.surgery], ps2)
  else do
    let (apts, ps2) ← collectAll ps
    let b ← apts.foldlM tallyStep initBuckets
    .ok ([b.periodic, b.limited, b.comprehensive, b.surgery], ps2)

/-! Notions used to state the theorems. -/

/-- The effect of one `to_dict` call on the appointment object: the date
attribute rewritten to its string form and the `_type` attribute added. -/
def mutSer (a : Appt) : Appt :=
  match a.date with
  | .date n => { a with date := .dstr n, hasTypeAttr := true }
  | _ => a

/-- The numeral behind the date attribute in either representation. -/
def dateNum (a : Appt) : Nat :=
  match a.date with
  | .date n => n
  | .dstr n => n
  | _ => 0

/-- The date attribute still is a `datetime.date` object (no `to_dict`
call has rewritten it yet). -/
def isFresh (a : Appt) : Bool :=
  match a.date with
  | .date _ => true
  | _ => false

/-- Fresh date attribute carrying a valid calendar date. -/
def isFreshValid (a : Appt) : Bool :=
  match a.date with
  | .date n => validDate n
  | _ => false

/-- The appointment is shaped as its variant constructor builds it: the
flag attributes are exactly the variant's, in order, and no `_type`
attribute has been added yet. -/
def wfFlags (a : Appt) : Bool :=
  (a.flags.map Prod.fst == a.variant.flagNames) && !a.hasTypeAttr

/-- The stats record `to_stats_dict` returns for a fresh appointment. -/
def statsRec (a : Appt) : Dict :=
  aremove (aremove (apptAttrs (mutSer a)) "note") "asa"

/-- The flat record `Repo.save` emits for one appointment of a patient. -/
def recordOf (p : Patient) (a : Appt) : Dict :=
  dmerge p.to_dict (apptAttrs (mutSer a))

def allAppts (ps : List Patient) : List Appt :=
  ps.flatMap (fun p => p.appointments)

/-- Strict containment in the tally date range, both ends exclusive. -/
def inRange (d1 d2 : Nat) (a : Appt) : Bool :=
  decide (d1 < dateNum a) && decide (dateNum a < d2)

/-- The bucket belonging to a variant. -/
def ownBucket (v : Variant) (b : Buckets) : List (String × Nat) :=
  match v with
  | .periodicExam => b.periodic
  | .limitedExam => b.limited
  | .comprehensiveExam => b.comprehensive
  | .surgery => b.surgery

def patientKeys : List String := ["mrn", "first", "last", "birthday", "sex"]

/-- All attribute names of a serialized appointment, in `__dict__`
order. -/
def apptKeys (v : Variant) : List String :=
  "date" :: "asa" :: "note" :: (v.flagNames ++ ["_type"])

def isStrOrInt : PyVal → Bool
  | .str _ => true
  | .int _ => true
  | _ => false

/-! Generic facts about the dictionary model. -/

theorem alookup_append {α : Type} (xs ys : List (String × α)) (k : String) :
    alookup (xs ++ ys) k =
      match alookup xs k with
      | some v => some v
      | Option.none => alookup ys k := by
  induction xs with
  | nil => simp [alookup]
  | cons kv rest ih =>
      obtain ⟨k1, v1⟩ := kv
      by_cases h : k1 = k
      · simp [alookup, h]
      · simp [alookup, h, ih]

theorem alookup_none_of_not_mem {α : Type} (l : List (String × α)) (k : String)
    (h : k ∉ l.map Prod.fst) : alookup l k = Option.none := by
  induction l with
  | nil => rfl
  | cons kv rest ih =>
      obtain ⟨k1, v1⟩ := kv
      have h1 : ¬ k1 = k := fun hh => h (by simp [hh])
      have h2 : k ∉ rest.map Prod.fst := fun hh => h (by simp [hh])
      simp only [alookup, if_neg h1]
      exact ih h2

theorem alookup_map_names {α : Type} (names : List String) (g : String → α)
    (k : String) (h : k ∈ names) :
    alookup (names.map (fun f => (f, g f))) k = some (g k) := by
  induction names with
  | nil => cases h
  | cons f rest ih =>
      by_cases hf : f = k
      · subst hf; simp [alookup]
      · have h2 : k ∈ rest := by
          rcases List.mem_cons.mp h with h | h
          · exact absurd h.symm hf
          · exact h
        simp [alookup, hf, ih h2]

theorem names_rebuild (l : List (String × PyVal))
    (hnd : (l.map Prod.fst).Nodup) :
    (l.map Prod.fst).map (fun f => (f, (alookup l f).getD PyVal.none)) = l := by
  induction l with
  | nil => rfl
  | cons kv rest ih =>
      obtain ⟨k1, v1⟩ := kv
      rw [List.map_cons, List.nodup_cons] at hnd
      obtain ⟨hk, hrest⟩ := hnd
      have htail : ∀ f ∈ rest.map Prod.fst,
          (f, (alookup ((k1, v1) :: rest) f).getD PyVal.none)
            = (f, (alookup rest f).getD PyVal.none) := by
        intro f hf
        have hne : ¬ k1 = f := fun hh => hk (hh ▸ hf)
        simp [alookup, hne]
      rw [List.map_cons, List.map_cons, List.map_congr_left htail, ih hrest]
      simp [alookup]

theorem aset_append_missing {α : Type} (l : List (String × α)) (k : String)
    (v : α) (h : alookup l k = Option.none) : aset l k v = l ++ [(k, v)] := by
  induction l with
  | nil => rfl
  | cons kv rest ih =>
      obtain ⟨k1, v1⟩ := kv
      by_cases hk : k1 = k
      · rw [alookup, if_pos hk] at h
        cases h
      · rw [alookup, if_neg hk] at h
        simp [aset, hk, ih h]

theorem dmerge_cons (a : Dict) (kv : String × PyVal) (rest : Dict) :
    dmerge a (kv :: rest) = dmerge (aset a kv.1 kv.2) rest := rfl

theorem dmerge_append (xs ys : Dict)
    (hdisj : ∀ kv ∈ ys, alookup xs kv.1 = Option.none)
    (hnd : (ys.map Prod.fst).Nodup) : dmerge xs ys = xs ++ ys := by
  induction ys generalizing xs with
  | nil => simp [dmerge]
  | cons kv rest ih =>
      obtain ⟨k1, v1⟩ := kv
      rw [List.map_cons, List.nodup_cons] at hnd
      obtain ⟨hk, hrest⟩ := hnd
      rw [dmerge_cons]
      have hmiss : alookup xs k1 = Option.none :=
        hdisj (k1, v1) (List.mem_cons_self _ _)
      rw [aset_append_missing xs k1 v1 hmiss]
      rw [ih (xs ++ [(k1, v1)]) ?hd hrest]
      · simp
      case hd =>
        intro kv2 hkv2
        rw [alookup_append]
        rw [hdisj kv2 (List.mem_cons_of_mem _ hkv2)]
        have hne : kv2.1 ∉ [(k1, v1)].map Prod.fst := by
          simp only [List.map_cons, List.map_nil, List.mem_singleton]
          intro hh
          have hmem : kv2.1 ∈ rest.map Prod.fst :=
            List.mem_map_of_mem Prod.fst hkv2
          rw [hh] at hmem
          exact hk hmem
        simp [alookup_none_of_not_mem _ _ hne]

/-! Facts about the fixed attribute-name lists, settled by computation. -/

theorem flagNames_nodup (v : Variant) : v.flagNames.Nodup := by
  cases v <;> decide

theorem apptKeys_nodup (v : Variant) : (apptKeys v).Nodup := by
  cases v <;> decide

theorem apptKeys_not_patient (v : Variant) :
    ∀ k ∈ apptKeys v, k ∉ patientKeys := by
  cases v <;> decide

theorem flagNames_fresh (v : Variant) :
    ∀ f ∈ v.flagNames,
      ¬ "date" = f ∧ ¬ "asa" = f ∧ ¬ "note" = f ∧ ¬ "_type" = f := by
  cases v <;> decide

theorem flagNames_not_patient (v : Variant) :
    ∀ f ∈ v.flagNames, f ∉ patientKeys := by
  cases v <;> decide

theorem type_not_flag (v : Variant) : "_type" ∉ v.flagNames := by
  cases v <;> decide

theorem variant_name_inj (v w : Variant) : v.name = w.name ↔ v = w := by
  cases v <;> cases w <;> decide

/-! The shape of the record `Repo.save` emits. -/

theorem mutSer_eq (a : Appt) (n : Nat) (hd : a.date = PyVal.date n) :
    mutSer a = { a with date := PyVal.dstr n, hasTypeAttr := true } := by
  simp [mutSer, hd]

theorem apptAttrs_mutSer (a : Appt) (n : Nat) (hd : a.date = PyVal.date n) :
    apptAttrs (mutSer a)
      = ("date", PyVal.dstr n) :: ("asa", a.asa) :: ("note", a.note) ::
        (a.flags ++ [("_type", PyVal.str a.variant.name)]) := by
  rw [mutSer_eq a n hd]
  simp [apptAttrs]

theorem apptAttrs_mutSer_fst (a : Appt) (n : Nat) (hd : a.date = PyVal.date n)
    (hf : a.flags.map Prod.fst = a.variant.flagNames) :
    (apptAttrs (mutSer a)).map Prod.fst = apptKeys a.variant := by
  rw [apptAttrs_mutSer a n hd]
  simp [apptKeys, hf]

theorem alookup_to_dict_none (p : Patient) (k : String) (h : k ∉ patientKeys) :
    alookup p.to_dict k = Option.none := by
  simp [patientKeys] at h
  obtain ⟨h1, h2, h3, h4, h5⟩ := h
  rw [Patient.to_dict]
  rw [alookup, if_neg (fun hh => h1 hh.symm)]
  rw [alookup, if_neg (fun hh => h2 hh.symm)]
  rw [alookup, if_neg (fun hh => h3 hh.symm)]
  rw [alookup, if_neg (fun hh => h4 hh.symm)]
  rw [alookup, if_neg (fun hh => h5 hh.symm)]
  rfl

theorem recordOf_eq (p : Patient) (a : Appt) (n : Nat)
    (hd : a.date = PyVal.date n)
    (hf : a.flags.map Prod.fst = a.variant.flagNames) :
    recordOf p a = p.to_dict ++ apptAttrs (mutSer a) := by
  apply dmerge_append
  · intro kv hkv
    apply alookup_to_dict_none
    apply apptKeys_not_patient a.variant
    have hmem : kv.1 ∈ (apptAttrs (mutSer a)).map Prod.fst :=
      List.mem_map_of_mem Prod.fst hkv
    rw [apptAttrs_mutSer_fst a n hd hf] at hmem
    exact hmem
  · rw [apptAttrs_mutSer_fst a n hd hf]
    exact apptKeys_nodup a.variant

theorem alookup_record_appt (p : Patient) (a : Appt) (k : String)
    (hk : k ∉ patientKeys) :
    alookup (p.to_dict ++ apptAttrs (mutSer a)) k
      = alookup (apptAttrs (mutSer a)) k := by
  rw [alookup_append, alookup_to_dict_none p k hk]

/-! Reconstruction of an appointment and its patient from the emitted
record. -/

theorem exceptOk_bind {α β : Type} (x : α) (f : α → Except String β) :
    (Except.ok x >>= f) = f x := rfl

theorem dGetE_record_date (p : Patient) (a : Appt) (n : Nat)
    (hd : a.date = PyVal.date n)
    (hf : a.flags.map Prod.fst = a.variant.flagNames) :
    dGetE (recordOf p a) "date" = .ok (PyVal.dstr n) := by
  rw [dGetE, recordOf_eq p a n hd hf,
    alookup_record_appt p a "date" (by decide), apptAttrs_mutSer a n hd]
  simp [alookup]

theorem dGet_record_asa (p : Patient) (a : Appt) (n : Nat)
    (hd : a.date = PyVal.date n)
    (hf : a.flags.map Prod.fst = a.variant.flagNames) :
    dGet (recordOf p a) "asa" = a.asa := by
  rw [dGet, recordOf_eq p a n hd hf,
    alookup_record_appt p a "asa" (by decide), apptAttrs_mutSer a n hd]
  simp [alookup]

theorem dGet_record_note (p : Patient) (a : Appt) (n : Nat)
    (hd : a.date = PyVal.date n)
    (hf : a.flags.map Prod.fst = a.variant.flagNames) :
    dGet (recordOf p a) "note" = a.note := by
  rw [dGet, recordOf_eq p a n hd hf,
    alookup_record_appt p a "note" (by decide), apptAttrs_mutSer a n hd]
  simp [alookup]

theorem dGetE_record_type (p : Patient) (a : Appt) (n : Nat)
    (hd : a.date = PyVal.date n)
    (hf : a.flags.map Prod.fst = a.variant.flagNames) :
    dGetE (recordOf p a) "_type" = .ok (PyVal.str a.variant.name) := by
  rw [dGetE, recordOf_eq p a n hd hf,
    alookup_record_appt p a "_type" (by decide), apptAttrs_mutSer a n hd]
  have hfl : alookup a.flags "_type" = Option.none := by
    apply alookup_none_of_not_mem
    rw [hf]
    exact type_not_flag a.variant
  rw [alookup, if_neg (by decide), alookup, if_neg (by decide),
    alookup, if_neg (by decide), alookup_append, hfl]
  simp [alookup]

theorem record_flags_rebuild (p : Patient) (a : Appt) (n : Nat)
    (hd : a.date = PyVal.date n)
    (hf : a.flags.map Prod.fst = a.variant.flagNames) :
    a.variant.flagNames.map (fun f => (f, dGet (recordOf p a) f)) = a.flags := by
  have hstep : ∀ f ∈ a.variant.flagNames,
      (f, dGet (recordOf p a) f)
        = (f, (alookup a.flags f).getD PyVal.none) := by
    intro f hfmem
    obtain ⟨hne1, hne2, hne3, hne4⟩ := flagNames_fresh a.variant f hfmem
    have hnp : f ∉ patientKeys := flagNames_not_patient a.variant f hfmem
    rw [dGet, recordOf_eq p a n hd hf, alookup_record_appt p a f hnp,
      apptAttrs_mutSer a n hd]
    rw [alookup, if_neg hne1, alookup, if_neg hne2, alookup, if_neg hne3,
      alookup_append]
    cases hlf : alookup a.flags f with
    | some v => rfl
    | none => rw [alookup, if_neg hne4]; rfl
  rw [List.map_congr_left hstep, ← hf]
  exact names_rebuild a.flags (by rw [hf]; exact flagNames_nodup a.variant)

theorem mkAppt_roundtrip (p : Patient) (a : Appt) (n : Nat)
    (hd : a.date = PyVal.date n) (hv : validDate n = true)
    (hf : a.flags.map Prod.fst = a.variant.flagNames)
    (ht : a.hasTypeAttr = false) :
    mkAppt a.variant (recordOf p a) = .ok a := by
  rw [mkAppt]
  rw [dGetE_record_date p a n hd hf]
  simp only [exceptOk_bind, strpdate, hv, if_pos]
  rw [dGet_record_asa p a n hd hf, dGet_record_note p a n hd hf,
    record_flags_rebuild p a n hd hf]
  cases a
  simp_all

theorem mkApptFromRecord_roundtrip (p : Patient) (a : Appt) (n : Nat)
    (hd : a.date = PyVal.date n) (hv : validDate n = true)
    (hf : a.flags.map Prod.fst = a.variant.flagNames)
    (ht : a.hasTypeAttr = false) :
    mkApptFromRecord (recordOf p a) = .ok a := by
  have hmk := mkAppt_roundtrip p a n hd hv hf ht
  rw [mkApptFromRecord]
  rw [dGetE_record_type p a n hd hf]
  cases hq : a.variant <;> rw [hq] at hmk <;>
    simp only [exceptOk_bind, Variant.name] <;> exact hmk

theorem ofRecord_roundtrip (p : Patient) (a : Appt) (n : Nat)
    (hd : a.date = PyVal.date n)
    (hf : a.flags.map Prod.fst = a.variant.flagNames)
    (hb : validDate p.birthday = true) :
    Patient.ofRecord (recordOf p a) = .ok { p with appointments := [] } := by
  rw [recordOf_eq p a n hd hf]
  rw [Patient.ofRecord]
  simp [dGetE, alookup_append, Patient.to_dict, alookup, strpdate, hb,
    exceptOk_bind]

/-! The save and load passes on a single patient. -/

theorem isFresh_date (a : Appt) (h : isFresh a = true) :
    a.date = PyVal.date (dateNum a) := by
  unfold isFresh at h
  unfold dateNum
  cases hA : a.date <;> simp_all

theorem isFreshValid_date (a : Appt) (h : isFreshValid a = true) :
    a.date = PyVal.date (dateNum a) ∧ validDate (dateNum a) = true := by
  unfold isFreshValid at h
  unfold dateNum
  cases hA : a.date <;> simp_all

theorem isFreshValid_fresh (a : Appt) (h : isFreshValid a = true) :
    isFresh a = true := by
  unfold isFreshValid at h
  unfold isFresh
  cases hA : a.date <;> simp_all

theorem wfFlags_spec (a : Appt) (h : wfFlags a = true) :
    a.flags.map Prod.fst = a.variant.flagNames ∧ a.hasTypeAttr = false := by
  unfold wfFlags at h
  simp at h
  exact h

theorem to_dict_fresh (a : Appt) (h : isFresh a = true) :
    a.to_dict = .ok (apptAttrs (mutSer a), mutSer a) := by
  have hd := isFresh_date a h
  unfold Appt.to_dict mutSer
  rw [hd]

theorem dGetE_record_mrn (p : Patient) (a : Appt) (n : Nat)
    (hd : a.date = PyVal.date n)
    (hf : a.flags.map Prod.fst = a.variant.flagNames) :
    dGetE (recordOf p a) "mrn" = .ok (PyVal.str p.mrn) := by
  rw [dGetE, recordOf_eq p a n hd hf, alookup_append]
  simp [Patient.to_dict, alookup]

theorem saveAppts_eq (pinfo : Dict) (as : List Appt)
    (h : ∀ a ∈ as, isFresh a = true) :
    saveAppts pinfo as
      = .ok (as.map (fun a => dmerge pinfo (apptAttrs (mutSer a))),
             as.map mutSer) := by
  induction as with
  | nil => rfl
  | cons a rest ih =>
      have hrest : ∀ a2 ∈ rest, isFresh a2 = true :=
        fun a2 hm => h a2 (List.mem_cons_of_mem _ hm)
      simp only [saveAppts, to_dict_fresh a (h a (List.mem_cons_self a rest)),
        ih hrest, exceptOk_bind, List.map_cons]

theorem save_single (p : Patient)
    (h : ∀ a ∈ p.appointments, isFresh a = true) :
    Repo.save [p] = .ok (p.appointments.map (recordOf p),
      [{ p with appointments := p.appointments.map mutSer }]) := by
  simp only [Repo.save, saveAppts_eq p.to_dict p.appointments h, exceptOk_bind,
    recordOf]
  simp
  intro a _
  rfl

theorem patientEq_record_true (p : Patient) (a : Appt) (n : Nat) (pre : List Appt)
    (hd : a.date = PyVal.date n)
    (hf : a.flags.map Prod.fst = a.variant.flagNames) :
    Patient.eq { p with appointments := pre } (.dict (recordOf p a)) = .ok true := by
  simp only [Patient.eq, dGetE_record_mrn p a n hd hf, exceptOk_bind]
  simp [pyEq]

theorem addRecord_existing (p : Patient) (a : Appt) (pre : List Appt)
    (hfv : isFreshValid a = true) (hwf : wfFlags a = true) :
    addRecord [{ p with appointments := pre }] (recordOf p a)
      = .ok [{ p with appointments := pre ++ [a] }] := by
  obtain ⟨hd, hv⟩ := isFreshValid_date a hfv
  obtain ⟨hf, ht⟩ := wfFlags_spec a hwf
  have hfind : findAdd a (recordOf p a) [{ p with appointments := pre }]
      = .ok (some [{ p with appointments := pre ++ [a] }]) := by
    simp only [findAdd, patientEq_record_true p a (dateNum a) pre hd hf,
      exceptOk_bind, if_pos]
  simp only [addRecord,
    mkApptFromRecord_roundtrip p a (dateNum a) hd hv hf ht,
    exceptOk_bind, hfind]

theorem addRecord_new (p : Patient) (a : Appt)
    (hb : validDate p.birthday = true)
    (hfv : isFreshValid a = true) (hwf : wfFlags a = true) :
    addRecord [] (recordOf p a) = .ok [{ p with appointments := [a] }] := by
  obtain ⟨hd, hv⟩ := isFreshValid_date a hfv
  obtain ⟨hf, ht⟩ := wfFlags_spec a hwf
  simp only [addRecord,
    mkApptFromRecord_roundtrip p a (dateNum a) hd hv hf ht,
    exceptOk_bind, findAdd,
    ofRecord_roundtrip p a (dateNum a) hd hf hb]
  rfl

theorem load_go (p : Patient) (as : List Appt) (pre : List Appt)
    (hb : validDate p.birthday = true)
    (hfv : ∀ a ∈ as, isFreshValid a = true)
    (hwf : ∀ a ∈ as, wfFlags a = true) :
    List.foldlM addRecord [{ p with appointments := pre }] (as.map (recordOf p))
      = .ok [{ p with appointments := pre ++ as }] := by
  induction as generalizing pre with
  | nil => simp; rfl
  | cons a rest ih =>
      have hstep := addRecord_existing p a pre
        (hfv a (List.mem_cons_self a rest)) (hwf a (List.mem_cons_self a rest))
      simp only [List.map_cons, List.foldlM_cons, hstep, exceptOk_bind]
      have hrest1 : ∀ a2 ∈ rest, isFreshValid a2 = true :=
        fun a2 hm => hfv a2 (List.mem_cons_of_mem _ hm)
      have hrest2 : ∀ a2 ∈ rest, wfFlags a2 = true :=
        fun a2 hm => hwf a2 (List.mem_cons_of_mem _ hm)
      rw [ih (pre ++ [a]) hrest1 hrest2]
      simp

/-- Claim C1: for every patient with at least one appointment (in the
freshly-constructed, well-formed state in which `Repo.save` finds it:
valid dates still held as date objects, flag attributes as the variant
constructor laid them out), loading the flat records that saving the
one-patient collection produced yields exactly that one-patient
collection again — same `mrn`, `first`, `last`, `birthday`, `sex`, and
the same appointments with identical variant tag, date, `asa`, `note`
and flag fields. -/
theorem c1_round_trip (p : Patient)
    (hne : p.appointments ≠ [])
    (hb : validDate p.birthday = true)
    (hfv : ∀ a ∈ p.appointments, isFreshValid a = true)
    (hwf : ∀ a ∈ p.appointments, wfFlags a = true) :
    ∃ recs mutps, Repo.save [p] = .ok (recs, mutps) ∧
      Repo.load recs = .ok [p] := by
  have hfresh : ∀ a ∈ p.appointments, isFresh a = true :=
    fun a hm => isFreshValid_fresh a (hfv a hm)
  refine ⟨p.appointments.map (recordOf p), _, save_single p hfresh, ?_⟩
  rw [Repo.load]
  cases hps : p.appointments with
  | nil => exact absurd hps hne
  | cons a rest =>
      rw [hps] at hfv hwf
      have hstep0 := addRecord_new p a hb
        (hfv a (List.mem_cons_self a rest)) (hwf a (List.mem_cons_self a rest))
      simp only [List.map_cons, List.foldlM_cons, hstep0, exceptOk_bind]
      have hrest1 : ∀ a2 ∈ rest, isFreshValid a2 = true :=
        fun a2 hm => hfv a2 (List.mem_cons_of_mem _ hm)
      have hrest2 : ∀ a2 ∈ rest, wfFlags a2 = true :=
        fun a2 hm => hwf a2 (List.mem_cons_of_mem _ hm)
      rw [load_go p rest [a] hb hrest1 hrest2]
      rw [show ([a] ++ rest : List Appt) = a :: rest from rfl, ← hps]

/-- Claim C10: serializing an appointment is not read-only.  For every
appointment whose date attribute is still a date object, `to_dict` (and
`to_stats_dict`, hence every save, record listing or tally that reaches
the appointment) returns the object with its `date` attribute reassigned
to the `YYYYMMDD` string form and a `_type` attribute added; afterwards
an equality comparison against the very same calendar date is `False`
(string versus date) and an order comparison against a date raises
`TypeError`. -/
theorem c10_serialization_mutates (a : Appt) (n : Nat)
    (hd : a.date = PyVal.date n) :
    a.to_dict = .ok (apptAttrs (mutSer a), mutSer a) ∧
    a.to_stats_dict = .ok (statsRec a, mutSer a) ∧
    (mutSer a).date = PyVal.dstr n ∧
    (mutSer a).hasTypeAttr = true ∧
    Appt.eq (mutSer a) (.date n) = false ∧
    (∀ d : Nat, pyLtDateL d (mutSer a).date = .error "TypeError") := by
  have hfresh : isFresh a = true := by rw [isFresh, hd]
  have h1 := to_dict_fresh a hfresh
  refine ⟨h1, ?_, ?_, ?_, ?_, ?_⟩
  · rw [Appt.to_stats_dict, h1, statsRec]
  · rw [mutSer_eq a n hd]
  · rw [mutSer_eq a n hd]
  · rw [mutSer_eq a n hd]
    simp [Appt.eq, pyEq]
  · intro d
    rw [mutSer_eq a n hd]
    rfl

def c1wAppt : Appt :=
  { variant := .surgery, date := .date 20210601, asa := .str "2",
    note := PyVal.none,
    flags := Variant.surgery.flagNames.map (fun f => (f, PyVal.none)),
    hasTypeAttr := false }

def c1wPatient : Patient :=
  { mrn := "100", first := "ann", last := "lee", birthday := 19900101,
    sex := "female", appointments := [c1wAppt] }

theorem c1_round_trip_witness :
    ∃ recs mutps, Repo.save [c1wPatient] = .ok (recs, mutps) ∧
      Repo.load recs = .ok [c1wPatient] :=
  c1_round_trip c1wPatient (by decide) (by decide) (by decide) (by decide)

theorem c10_serialization_mutates_witness :
    c1wAppt.to_dict = .ok (apptAttrs (mutSer c1wAppt), mutSer c1wAppt) ∧
    c1wAppt.to_stats_dict = .ok (statsRec c1wAppt, mutSer c1wAppt) ∧
    (mutSer c1wAppt).date = PyVal.dstr 20210601 ∧
    (mutSer c1wAppt).hasTypeAttr = true ∧
    Appt.eq (mutSer c1wAppt) (.date 20210601) = false ∧
    (∀ d : Nat, pyLtDateL d (mutSer c1wAppt).date = .error "TypeError") :=
  c10_serialization_mutates c1wAppt 20210601 (by decide)

/-! The collection phase of `tally_stats`. -/

theorem to_stats_dict_fresh (a : Appt) (h : isFresh a = true) :
    a.to_stats_dict = .ok (statsRec a, mutSer a) := by
  rw [Appt.to_stats_dict, to_dict_fresh a h, statsRec]

theorem statsAll_eq (as : List Appt) (h : ∀ a ∈ as, isFresh a = true) :
    statsAll as = .ok (as.map statsRec, as.map mutSer) := by
  induction as with
  | nil => rfl
  | cons a rest ih =>
      simp only [statsAll,
        to_stats_dict_fresh a (h a (List.mem_cons_self a rest)),
        ih (fun x hm => h x (List.mem_cons_of_mem _ hm)), exceptOk_bind,
        List.map_cons]

theorem statsFiltered_eq (d1 d2 : Nat) (as : List Appt)
    (h : ∀ a ∈ as, isFresh a = true) :
    ∃ as2, statsFiltered d1 d2 as
      = .ok ((as.filter (inRange d1 d2)).map statsRec, as2) := by
  induction as with
  | nil => exact ⟨[], rfl⟩
  | cons a rest ih =>
      obtain ⟨as2, hrest⟩ := ih (fun x hm => h x (List.mem_cons_of_mem _ hm))
      have hd := isFresh_date a (h a (List.mem_cons_self a rest))
      have hts := to_stats_dict_fresh a (h a (List.mem_cons_self a rest))
      by_cases h1 : d1 < dateNum a
      · by_cases h2 : dateNum a < d2
        · refine ⟨mutSer a :: as2, ?_⟩
          simp [statsFiltered, hd, pyLtDateL, pyLtDateR, h1, h2, hts, hrest,
            exceptOk_bind, List.filter_cons, inRange]
        · refine ⟨a :: as2, ?_⟩
          simp [statsFiltered, hd, pyLtDateL, pyLtDateR, h1, h2, hrest,
            exceptOk_bind, List.filter_cons, inRange]
      · refine ⟨a :: as2, ?_⟩
        simp [statsFiltered, hd, pyLtDateL, pyLtDateR, h1, hrest,
          exceptOk_bind, List.filter_cons, inRange]

theorem collectAll_eq (ps : List Patient)
    (h : ∀ p ∈ ps, ∀ a ∈ p.appointments, isFresh a = true) :
    collectAll ps = .ok ((allAppts ps).map statsRec,
      ps.map (fun p => { p with appointments := p.appointments.map mutSer })) := by
  induction ps with
  | nil => rfl
  | cons p rest ih =>
      simp only [collectAll,
        statsAll_eq p.appointments (h p (List.mem_cons_self p rest)),
        ih (fun q hm => h q (List.mem_cons_of_mem _ hm)), exceptOk_bind,
        allAppts, List.flatMap_cons, List.map_append, List.map_cons]

theorem collectFiltered_eq (d1 d2 : Nat) (ps : List Patient)
    (h : ∀ p ∈ ps, ∀ a ∈ p.appointments, isFresh a = true) :
    ∃ ps2, collectFiltered d1 d2 ps
      = .ok (((allAppts ps).filter (inRange d1 d2)).map statsRec, ps2) := by
  induction ps with
  | nil => exact ⟨[], rfl⟩
  | cons p rest ih =>
      obtain ⟨ps2, hrest⟩ := ih (fun q hm => h q (List.mem_cons_of_mem _ hm))
      obtain ⟨as2, hp⟩ := statsFiltered_eq d1 d2 p.appointments
        (h p (List.mem_cons_self p rest))
      refine ⟨{ p with appointments := as2 } :: ps2, ?_⟩
      simp only [collectFiltered, hp, hrest, exceptOk_bind, allAppts,
        List.flatMap_cons, List.filter_append, List.map_append]

theorem validDate_ne_zero (n : Nat) (h : validDate n = true) : (n != 0) = true := by
  cases hn : n == 0 with
  | true =>
      have : n = 0 := by simpa using hn
      subst this
      exact absurd h (by decide)
  | false => simp_all

/-- Claim C4: with both bounds supplied as (valid) dates, `tally_stats`
includes an appointment in its tally exactly when its date lies strictly
between the bounds — both boundary dates excluded (`inRange`); the
tallied stats records are exactly those of the strictly-filtered
appointment list, in traversal order.  With either bound omitted, every
appointment of every patient is included. -/
theorem c4_date_bounds (ps : List Patient) (d1 d2 : Nat)
    (h1 : validDate d1 = true) (h2 : validDate d2 = true)
    (hfresh : ∀ p ∈ ps, ∀ a ∈ p.appointments, isFresh a = true) :
    (∃ ps2, collectFiltered d1 d2 ps
        = .ok (((allAppts ps).filter (inRange d1 d2)).map statsRec, ps2) ∧
      tally_stats ps (some d1) (some d2)
        = (do
            let b ← (((allAppts ps).filter (inRange d1 d2)).map
              statsRec).foldlM tallyStep initBuckets
            Except.ok ([b.periodic, b.limited, b.comprehensive, b.surgery],
              ps2))) ∧
    (∀ e1 e2 : Option Nat, e1 = Option.none ∨ e2 = Option.none →
      ∃ ps3, collectAll ps = .ok ((allAppts ps).map statsRec, ps3) ∧
        tally_stats ps e1 e2
          = (do
              let b ← ((allAppts ps).map statsRec).foldlM tallyStep initBuckets
              Except.ok ([b.periodic, b.limited, b.comprehensive, b.surgery],
                ps3))) := by
  constructor
  · obtain ⟨ps2, hc⟩ := collectFiltered_eq d1 d2 ps hfresh
    refine ⟨ps2, hc, ?_⟩
    rw [tally_stats]
    simp only [optTruthy, validDate_ne_zero d1 h1, validDate_ne_zero d2 h2,
      Bool.and_self, if_pos, Option.getD_some, strpdate, h1, h2, if_pos,
      exceptOk_bind, hc]
  · intro e1 e2 he
    refine ⟨ps.map (fun p => { p with appointments := p.appointments.map mutSer }),
      collectAll_eq ps hfresh, ?_⟩
    rw [tally_stats]
    have hff : (optTruthy e1 && optTruthy e2) = false := by
      rcases he with he | he <;> subst he <;> simp [optTruthy]
    simp only [hff, Bool.false_eq_true, if_false, collectAll_eq ps hfresh,
      exceptOk_bind]

def c4wPatient : Patient :=
  { mrn := "7", first := "jo", last := "um", birthday := 19800101,
    sex := "male",
    appointments :=
      [{ variant := .periodicExam, date := .date 20210101, asa := PyVal.none,
         note := PyVal.none, flags := [], hasTypeAttr := false },
       { variant := .periodicExam, date := .date 20210315, asa := PyVal.none,
         note := PyVal.none, flags := [], hasTypeAttr := false },
       { variant := .periodicExam, date := .date 20211231, asa := PyVal.none,
         note := PyVal.none, flags := [], hasTypeAttr := false }] }

theorem c4_date_bounds_witness :
    (∃ ps2, collectFiltered 20210101 20211231 [c4wPatient]
        = .ok (((allAppts [c4wPatient]).filter (inRange 20210101 20211231)).map
            statsRec, ps2) ∧
      tally_stats [c4wPatient] (some 20210101) (some 20211231)
        = (do
            let b ← (((allAppts [c4wPatient]).filter
              (inRange 20210101 20211231)).map statsRec).foldlM tallyStep
              initBuckets
            Except.ok ([b.periodic, b.limited, b.comprehensive, b.surgery],
              ps2))) ∧
    (∀ e1 e2 : Option Nat, e1 = Option.none ∨ e2 = Option.none →
      ∃ ps3, collectAll [c4wPatient]
          = .ok ((allAppts [c4wPatient]).map statsRec, ps3) ∧
        tally_stats [c4wPatient] e1 e2
          = (do
              let b ← ((allAppts [c4wPatient]).map statsRec).foldlM tallyStep
                initBuckets
              Except.ok ([b.periodic, b.limited, b.comprehensive, b.surgery],
                ps3))) :=
  c4_date_bounds [c4wPatient] 20210101 20211231 (by decide) (by decide)
    (by decide)

/-! The C2 scenario: empty collection, add a PeriodicExam dated 20210101
for mrn "100", add a Surgery dated 20210601 for mrn "100" with
`biopsy=true`, then `tally_stats()` with no arguments.  The appointment
records carry the full patient fields the constructors require. -/

def c2rec1 : Dict :=
  [("mrn", .str "100"), ("first", .str "ann"), ("last", .str "lee"),
   ("birthday", .dstr 19900101), ("sex", .str "female"),
   ("_type", .str "PeriodicExam"), ("date", .dstr 20210101)]

def c2rec2 : Dict :=
  [("mrn", .str "100"), ("first", .str "ann"), ("last", .str "lee"),
   ("birthday", .dstr 19900101), ("sex", .str "female"),
   ("_type", .str "Surgery"), ("date", .dstr 20210601),
   ("biopsy", .bool true)]

/-- The bucket list the scenario actually produces. -/
def c2actual : List (List (String × Nat)) :=
  [[("PeriodicExam", 1), ("date", 1)],
   [("LimitedExam", 0)],
   [("ComprehensiveExam", 0)],
   [("Surgery", 1), ("date", 1), ("biopsy", 1)]]

/-- The bucket list the claim expects. -/
def c2claimed : List (List (String × Nat)) :=
  [[("PeriodicExam", 1)],
   [("LimitedExam", 0)],
   [("ComprehensiveExam", 0)],
   [("Surgery", 1), ("biopsy", 1)]]

/-- The scenario run: two `add_appointment` calls from the empty
collection, then `tally_stats` with no arguments, keeping the returned
bucket list. -/
def c2run : Except String (List (List (String × Nat))) :=
  ((add_appointment [] c2rec1).bind (fun ps => add_appointment ps c2rec2)).bind
    (fun ps => (tally_stats ps Option.none Option.none).map Prod.fst)

/-- Claim C2 is falsified on the code: the scenario returns the buckets
with an additional `date` counter in the `PeriodicExam` and `Surgery`
buckets — the stats record's `date` field is never `None`, so the field
loop counts it like any procedure flag — and therefore not the claimed
4-element list. -/
theorem c2_tally_counterexample :
    c2run = .ok c2actual ∧ c2actual ≠ c2claimed :=
  ⟨rfl, by decide⟩

/-- Claim C2 amended: the scenario returns
`[{"PeriodicExam":1,"date":1}, {"LimitedExam":0}, {"ComprehensiveExam":0},
{"Surgery":1,"date":1,"biopsy":1}]`, in that fixed bucket order — the
claimed buckets plus a `date` counter in each bucket that tallied an
appointment, and no other keys. -/
theorem c2_tally_amended : c2run = .ok c2actual := rfl

/-! Counter-dictionary facts for the tally field loops. -/

theorem aincr_lookup_ne (l l2 : List (String × Nat)) (k : String)
    (h : aincr l k = .ok l2) (k2 : String) (hne : k2 ≠ k) :
    alookup l2 k2 = alookup l k2 := by
  induction l generalizing l2 with
  | nil => cases h
  | cons kv rest ih =>
      obtain ⟨k1, v1⟩ := kv
      rw [aincr] at h
      by_cases hk : k1 = k
      · rw [if_pos hk] at h
        injection h with h2
        subst h2
        have hne1 : ¬ k1 = k2 := fun hh => hne (hh ▸ hk)
        simp [alookup, hne1]
      · rw [if_neg hk] at h
        cases hrec : aincr rest k with
        | error e => rw [hrec] at h; cases h
        | ok r =>
            rw [hrec] at h
            injection h with h2
            subst h2
            by_cases hk2 : k1 = k2
            · simp [alookup, hk2]
            · simp [alookup, hk2, ih r hrec]

theorem aincr_hasKey (l l2 : List (String × Nat)) (k : String)
    (h : aincr l k = .ok l2) (k2 : String) :
    hasKey l2 k2 = hasKey l k2 := by
  induction l generalizing l2 with
  | nil => cases h
  | cons kv rest ih =>
      obtain ⟨k1, v1⟩ := kv
      rw [aincr] at h
      by_cases hk : k1 = k
      · rw [if_pos hk] at h
        injection h with h2
        subst h2
        by_cases hk2 : k1 = k2 <;> simp [hasKey, alookup, hk2]
      · rw [if_neg hk] at h
        cases hrec : aincr rest k with
        | error e => rw [hrec] at h; cases h
        | ok r =>
            rw [hrec] at h
            injection h with h2
            subst h2
            have := ih r hrec
            by_cases hk2 : k1 = k2 <;> simp_all [hasKey, alookup]

theorem aincr_ok_hasKey (l l2 : List (String × Nat)) (k : String)
    (h : aincr l k = .ok l2) : hasKey l2 k = true := by
  induction l generalizing l2 with
  | nil => cases h
  | cons kv rest ih =>
      obtain ⟨k1, v1⟩ := kv
      rw [aincr] at h
      by_cases hk : k1 = k
      · rw [if_pos hk] at h
        injection h with h2
        subst h2
        simp [hasKey, alookup, hk]
      · rw [if_neg hk] at h
        cases hrec : aincr rest k with
        | error e => rw [hrec] at h; cases h
        | ok r =>
            rw [hrec] at h
            injection h with h2
            subst h2
            have := ih r hrec
            simp_all [hasKey, alookup, hk]

theorem aset_lookup_ne {α : Type} (l : List (String × α)) (k : String) (v : α)
    (k2 : String) (hne : k2 ≠ k) : alookup (aset l k v) k2 = alookup l k2 := by
  induction l with
  | nil =>
      have hne1 : ¬ k = k2 := fun hh => hne hh.symm
      simp [aset, alookup, hne1]
  | cons kv rest ih =>
      obtain ⟨k1, v1⟩ := kv
      by_cases hk : k1 = k
      · rw [aset, if_pos hk]
        have hne1 : ¬ k1 = k2 := fun hh => hne (hh ▸ hk)
        simp [alookup, hne1]
      · rw [aset, if_neg hk]
        by_cases hk2 : k1 = k2 <;> simp [alookup, hk2, ih]

theorem aset_hasKey_self {α : Type} (l : List (String × α)) (k : String)
    (v : α) : hasKey (aset l k v) k = true := by
  induction l with
  | nil => simp [aset, hasKey, alookup]
  | cons kv rest ih =>
      obtain ⟨k1, v1⟩ := kv
      by_cases hk : k1 = k
      · rw [aset, if_pos hk]
        simp [hasKey, alookup, hk]
      · rw [aset, if_neg hk]
        simp [hasKey, alookup, hk]
        simpa [hasKey] using ih

theorem aset_hasKey_mono {α : Type} (l : List (String × α)) (k : String)
    (v : α) (k2 : String) (h : hasKey l k2 = true) :
    hasKey (aset l k v) k2 = true := by
  by_cases hk : k2 = k
  · subst hk
    exact aset_hasKey_self l k2 v
  · rw [hasKey, aset_lookup_ne l k v k2 hk]
    exact h

/-! Behaviour of the two tally field loops. -/

theorem tallyCross_untouched (memb : List (String × Nat)) (items : Dict)
    (own own2 : List (String × Nat))
    (h : tallyCross memb own items = .ok own2) (k : String)
    (hk : ∀ val, (k, val) ∈ items → val = PyVal.none) :
    alookup own2 k = alookup own k := by
  induction items generalizing own with
  | nil =>
      injection h with h2
      subst h2
      rfl
  | cons kv rest ih =>
      obtain ⟨k1, v1⟩ := kv
      have hkrest : ∀ val, (k, val) ∈ rest → val = PyVal.none :=
        fun val hm => hk val (List.mem_cons_of_mem _ hm)
      rw [tallyCross] at h
      by_cases hv : v1 = PyVal.none
      · rw [if_pos hv] at h
        exact ih own h hkrest
      · rw [if_neg hv] at h
        have hne : k ≠ k1 := by
          intro hh
          exact hv (hk v1 (by rw [hh]; exact List.mem_cons_self _ _))
        by_cases hm : hasKey memb k1 = true
        · rw [if_pos hm] at h
          cases haincr : aincr own k1 with
          | error e => rw [haincr] at h; cases h
          | ok o2 =>
              rw [haincr] at h
              rw [exceptOk_bind] at h
              rw [ih o2 h hkrest]
              exact aincr_lookup_ne own o2 k1 haincr k hne
        · rw [if_neg hm] at h
          by_cases ht : k1 = "_type"
          · rw [if_pos ht] at h
            exact ih own h hkrest
          · rw [if_neg ht] at h
            rw [ih (aset own k1 1) h hkrest]
            exact aset_lookup_ne own k1 1 k hne

theorem tallyCross_mono (memb : List (String × Nat)) (items : Dict)
    (own own2 : List (String × Nat))
    (h : tallyCross memb own items = .ok own2) (k : String)
    (hk : hasKey own k = true) : hasKey own2 k = true := by
  induction items generalizing own with
  | nil =>
      injection h with h2
      subst h2
      exact hk
  | cons kv rest ih =>
      obtain ⟨k1, v1⟩ := kv
      rw [tallyCross] at h
      by_cases hv : v1 = PyVal.none
      · rw [if_pos hv] at h
        exact ih own h hk
      · rw [if_neg hv] at h
        by_cases hm : hasKey memb k1 = true
        · rw [if_pos hm] at h
          cases haincr : aincr own k1 with
          | error e => rw [haincr] at h; cases h
          | ok o2 =>
              rw [haincr] at h
              rw [exceptOk_bind] at h
              refine ih o2 h ?_
              rw [show hasKey o2 k = hasKey own k from aincr_hasKey own o2 k1 haincr k]
              exact hk
        · rw [if_neg hm] at h
          by_cases ht : k1 = "_type"
          · rw [if_pos ht] at h
            exact ih own h hk
          · rw [if_neg ht] at h
            exact ih (aset own k1 1) h (aset_hasKey_mono own k1 1 k hk)

theorem tallyCross_presence (memb : List (String × Nat)) (items : Dict)
    (own own2 : List (String × Nat))
    (h : tallyCross memb own items = .ok own2) (k : String) (val : PyVal)
    (hmem : (k, val) ∈ items) (hv : val ≠ PyVal.none) (ht : k ≠ "_type") :
    hasKey own2 k = true := by
  induction items generalizing own with
  | nil => cases hmem
  | cons kv rest ih =>
      obtain ⟨k1, v1⟩ := kv
      rw [tallyCross] at h
      rcases List.mem_cons.mp hmem with hh | hh
      · injection hh with hh1 hh2
        subst hh1
        subst hh2
        rw [if_neg hv] at h
        by_cases hm : hasKey memb k = true
        · rw [if_pos hm] at h
          cases haincr : aincr own k with
          | error e => rw [haincr] at h; cases h
          | ok o2 =>
              rw [haincr] at h
              rw [exceptOk_bind] at h
              exact tallyCross_mono memb rest o2 own2 h k
                (aincr_ok_hasKey own o2 k haincr)
        · rw [if_neg hm] at h
          rw [if_neg ht] at h
          exact tallyCross_mono memb rest (aset own k 1) own2 h k
            (aset_hasKey_self own k 1)
      · by_cases hv1 : v1 = PyVal.none
        · rw [if_pos hv1] at h
          exact ih own h hh
        · rw [if_neg hv1] at h
          by_cases hm : hasKey memb k1 = true
          · rw [if_pos hm] at h
            cases haincr : aincr own k1 with
            | error e => rw [haincr] at h; cases h
            | ok o2 =>
                rw [haincr] at h
                rw [exceptOk_bind] at h
                exact ih o2 h hh
          · rw [if_neg hm] at h
            by_cases ht1 : k1 = "_type"
            · rw [if_pos ht1] at h
              exact ih own h hh
            · rw [if_neg ht1] at h
              exact ih (aset own k1 1) h hh

theorem tallyOwn_untouched (items : Dict) (own own2 : List (String × Nat))
    (h : tallyOwn own items = .ok own2) (k : String)
    (hk : ∀ val, (k, val) ∈ items → val = PyVal.none) :
    alookup own2 k = alookup own k := by
  induction items generalizing own with
  | nil =>
      injection h with h2
      subst h2
      rfl
  | cons kv rest ih =>
      obtain ⟨k1, v1⟩ := kv
      have hkrest : ∀ val, (k, val) ∈ rest → val = PyVal.none :=
        fun val hm => hk val (List.mem_cons_of_mem _ hm)
      rw [tallyOwn] at h
      by_cases hv : v1 = PyVal.none
      · rw [if_pos hv] at h
        exact ih own h hkrest
      · rw [if_neg hv] at h
        have hne : k ≠ k1 := by
          intro hh
          exact hv (hk v1 (by rw [hh]; exact List.mem_cons_self _ _))
        by_cases hm : hasKey own k1 = true
        · rw [if_pos hm] at h
          cases haincr : aincr own k1 with
          | error e => rw [haincr] at h; cases h
          | ok o2 =>
              rw [haincr] at h
              rw [exceptOk_bind] at h
              rw [ih o2 h hkrest]
              exact aincr_lookup_ne own o2 k1 haincr k hne
        · rw [if_neg hm] at h
          by_cases ht : k1 = "_type"
          · rw [if_pos ht] at h
            exact ih own h hkrest
          · rw [if_neg ht] at h
            rw [ih (aset own k1 1) h hkrest]
            exact aset_lookup_ne own k1 1 k hne

theorem tallyOwn_mono (items : Dict) (own own2 : List (String × Nat))
    (h : tallyOwn own items = .ok own2) (k : String)
    (hk : hasKey own k = true) : hasKey own2 k = true := by
  induction items generalizing own with
  | nil =>
      injection h with h2
      subst h2
      exact hk
  | cons kv rest ih =>
      obtain ⟨k1, v1⟩ := kv
      rw [tallyOwn] at h
      by_cases hv : v1 = PyVal.none
      · rw [if_pos hv] at h
        exact ih own h hk
      · rw [if_neg hv] at h
        by_cases hm : hasKey own k1 = true
        · rw [if_pos hm] at h
          cases haincr : aincr own k1 with
          | error e => rw [haincr] at h; cases h
          | ok o2 =>
              rw [haincr] at h
              rw [exceptOk_bind] at h
              refine ih o2 h ?_
              rw [show hasKey o2 k = hasKey own k from
                aincr_hasKey own o2 k1 haincr k]
              exact hk
        · rw [if_neg hm] at h
          by_cases ht : k1 = "_type"
          · rw [if_pos ht] at h
            exact ih own h hk
          · rw [if_neg ht] at h
            exact ih (aset own k1 1) h (aset_hasKey_mono own k1 1 k hk)

theorem tallyOwn_presence (items : Dict) (own own2 : List (String × Nat))
    (h : tallyOwn own items = .ok own2) (k : String) (val : PyVal)
    (hmem : (k, val) ∈ items) (hv : val ≠ PyVal.none) (ht : k ≠ "_type") :
    hasKey own2 k = true := by
  induction items generalizing own with
  | nil => cases hmem
  | cons kv rest ih =>
      obtain ⟨k1, v1⟩ := kv
      rw [tallyOwn] at h
      rcases List.mem_cons.mp hmem with hh | hh
      · injection hh with hh1 hh2
        subst hh1
        subst hh2
        rw [if_neg hv] at h
        by_cases hm : hasKey own k = true
        · rw [if_pos hm] at h
          cases haincr : aincr own k with
          | error e => rw [haincr] at h; cases h
          | ok o2 =>
              rw [haincr] at h
              rw [exceptOk_bind] at h
              exact tallyOwn_mono rest o2 own2 h k
                (aincr_ok_hasKey own o2 k haincr)
        · rw [if_neg hm] at h
          rw [if_neg ht] at h
          exact tallyOwn_mono rest (aset own k 1) own2 h k
            (aset_hasKey_self own k 1)
      · by_cases hv1 : v1 = PyVal.none
        · rw [if_pos hv1] at h
          exact ih own h hh
        · rw [if_neg hv1] at h
          by_cases hm : hasKey own k1 = true
          · rw [if_pos hm] at h
            cases haincr : aincr own k1 with
            | error e => rw [haincr] at h; cases h
            | ok o2 =>
                rw [haincr] at h
                rw [exceptOk_bind] at h
                exact ih o2 h hh
          · rw [if_neg hm] at h
            by_cases ht1 : k1 = "_type"
            · rw [if_pos ht1] at h
              exact ih own h hh
            · rw [if_neg ht1] at h
              exact ih (aset own k1 1) h hh

theorem exceptError_bind {α β : Type} (e : String)
    (f : α → Except String β) :
    ((Except.error e : Except String α) >>= f) = .error e := rfl

/-- Claim C3: one appointment's pass through the bucket loop only ever
creates or increments counters in the bucket of its own variant — the
other three buckets come out unchanged; within the own bucket, every
non-null field other than the discriminator ends up with a counter
present, and every key that is neither the variant-name counter nor a
non-null field of the record is left untouched. -/
theorem c3_bucket_localization (b b2 : Buckets) (apt : Dict) (v : Variant)
    (ht : alookup apt "_type" = some (.str v.name))
    (hstep : tallyStep b apt = .ok b2) :
    (∀ w : Variant, w ≠ v → ownBucket w b2 = ownBucket w b) ∧
    (∀ k val, (k, val) ∈ apt → val ≠ PyVal.none → k ≠ "_type" →
      hasKey (ownBucket v b2) k = true) ∧
    (∀ k, k ≠ v.name → (∀ val, (k, val) ∈ apt → val = PyVal.none) →
      alookup (ownBucket v b2) k = alookup (ownBucket v b) k) := by
  cases v
  case periodicExam =>
    have hdisp : tallyStep b apt = (do
        let own ← aincr b.periodic "PeriodicExam"
        let own2 ← tallyOwn own apt
        Except.ok { b with periodic := own2 }) := by
      rw [tallyStep, dGetE, ht]
      rfl
    rw [hdisp] at hstep
    cases haincr : aincr b.periodic "PeriodicExam" with
    | error e =>
        rw [haincr, exceptError_bind] at hstep
        exact Except.noConfusion hstep
    | ok own =>
        rw [haincr, exceptOk_bind] at hstep
        cases hloop : tallyOwn own apt with
        | error e =>
            rw [hloop, exceptError_bind] at hstep
            exact Except.noConfusion hstep
        | ok own2 =>
            rw [hloop, exceptOk_bind] at hstep
            injection hstep with hb2
            subst hb2
            refine ⟨?_, ?_, ?_⟩
            · intro w hw
              cases w
              · exact absurd rfl hw
              · rfl
              · rfl
              · rfl
            · intro k val hmem hv hty
              exact tallyOwn_presence apt own own2 hloop k val hmem hv hty
            · intro k hk1 hk2
              have hname : k ≠ "PeriodicExam" := hk1
              show alookup own2 k = alookup b.periodic k
              rw [tallyOwn_untouched apt own own2 hloop k hk2]
              exact aincr_lookup_ne b.periodic own "PeriodicExam" haincr k hname
  case limitedExam =>
    have hdisp : tallyStep b apt = (do
        let own ← aincr b.limited "LimitedExam"
        let own2 ← tallyOwn own apt
        Except.ok { b with limited := own2 }) := by
      rw [tallyStep, dGetE, ht]
      rfl
    rw [hdisp] at hstep
    cases haincr : aincr b.limited "LimitedExam" with
    | error e =>
        rw [haincr, exceptError_bind] at hstep
        exact Except.noConfusion hstep
    | ok own =>
        rw [haincr, exceptOk_bind] at hstep
        cases hloop : tallyOwn own apt with
        | error e =>
            rw [hloop, exceptError_bind] at hstep
            exact Except.noConfusion hstep
        | ok own2 =>
            rw [hloop, exceptOk_bind] at hstep
            injection hstep with hb2
            subst hb2
            refine ⟨?_, ?_, ?_⟩
            · intro w hw
              cases w
              · rfl
              · exact absurd rfl hw
              · rfl
              · rfl
            · intro k val hmem hv hty
              exact tallyOwn_presence apt own own2 hloop k val hmem hv hty
            · intro k hk1 hk2
              have hname : k ≠ "LimitedExam" := hk1
              show alookup own2 k = alookup b.limited k
              rw [tallyOwn_untouched apt own own2 hloop k hk2]
              exact aincr_lookup_ne b.limited own "LimitedExam" haincr k hname
  case comprehensiveExam =>
    have hdisp : tallyStep b apt = (do
        let own ← aincr b.comprehensive "ComprehensiveExam"
        let own2 ← tallyCross b.limited own apt
        Except.ok { b with comprehensive := own2 }) := by
      rw [tallyStep, dGetE, ht]
      rfl
    rw [hdisp] at hstep
    cases haincr : aincr b.comprehensive "ComprehensiveExam" with
    | error e =>
        rw [haincr, exceptError_bind] at hstep
        exact Except.noConfusion hstep
    | ok own =>
        rw [haincr, exceptOk_bind] at hstep
        cases hloop : tallyCross b.limited own apt with
        | error e =>
            rw [hloop, exceptError_bind] at hstep
            exact Except.noConfusion hstep
        | ok own2 =>
            rw [hloop, exceptOk_bind] at hstep
            injection hstep with hb2
            subst hb2
            refine ⟨?_, ?_, ?_⟩
            · intro w hw
              cases w
              · rfl
              · rfl
              · exact absurd rfl hw
              · rfl
            · intro k val hmem hv hty
              exact tallyCross_presence b.limited apt own own2 hloop k val hmem
                hv hty
            · intro k hk1 hk2
              have hname : k ≠ "ComprehensiveExam" := hk1
              show alookup own2 k = alookup b.comprehensive k
              rw [tallyCross_untouched b.limited apt own own2 hloop k hk2]
              exact aincr_lookup_ne b.comprehensive own "ComprehensiveExam"
                haincr k hname
  case surgery =>
    have hdisp : tallyStep b apt = (do
        let own ← aincr b.surgery "Surgery"
        let own2 ← tallyCross b.limited own apt
        Except.ok { b with surgery := own2 }) := by
      rw [tallyStep, dGetE, ht]
      rfl
    rw [hdisp] at hstep
    cases haincr : aincr b.surgery "Surgery" with
    | error e =>
        rw [haincr, exceptError_bind] at hstep
        exact Except.noConfusion hstep
    | ok own =>
        rw [haincr, exceptOk_bind] at hstep
        cases hloop : tallyCross b.limited own apt with
        | error e =>
            rw [hloop, exceptError_bind] at hstep
            exact Except.noConfusion hstep
        | ok own2 =>
            rw [hloop, exceptOk_bind] at hstep
            injection hstep with hb2
            subst hb2
            refine ⟨?_, ?_, ?_⟩
            · intro w hw
              cases w
              · rfl
              · rfl
              · rfl
              · exact absurd rfl hw
            · intro k val hmem hv hty
              exact tallyCross_presence b.limited apt own own2 hloop k val hmem
                hv hty
            · intro k hk1 hk2
              have hname : k ≠ "Surgery" := hk1
              show alookup own2 k = alookup b.surgery k
              rw [tallyCross_untouched b.limited apt own own2 hloop k hk2]
              exact aincr_lookup_ne b.surgery own "Surgery" haincr k hname

/-- The stats record of the scenario Surgery appointment (date string,
truthy `biopsy`, all other flags `None`). -/
def c3apt : Dict :=
  [("date", .dstr 20210601), ("biopsy", .bool true),
   ("extractions", PyVal.none), ("uncovery", PyVal.none),
   ("implant", PyVal.none), ("crown_lengthening", PyVal.none),
   ("soft_tissue", PyVal.none), ("perio", PyVal.none),
   ("miscellaneous", PyVal.none), ("sinus", PyVal.none),
   ("peri_implantitis", PyVal.none), ("_type", PyVal.str "Surgery")]

/-- The buckets after tallying `c3apt` from the initial buckets. -/
def c3buckets : Buckets :=
  { periodic := [("PeriodicExam", 0)], limited := [("LimitedExam", 0)],
    comprehensive := [("ComprehensiveExam", 0)],
    surgery := [("Surgery", 1), ("date", 1), ("biopsy", 1)] }

theorem c3_bucket_localization_witness :
    (∀ w : Variant, w ≠ .surgery →
      ownBucket w c3buckets = ownBucket w initBuckets) ∧
    (∀ k val, (k, val) ∈ c3apt → val ≠ PyVal.none → k ≠ "_type" →
      hasKey (ownBucket .surgery c3buckets) k = true) ∧
    (∀ k, k ≠ Variant.surgery.name →
      (∀ val, (k, val) ∈ c3apt → val = PyVal.none) →
      alookup (ownBucket .surgery c3buckets) k
        = alookup (ownBucket .surgery initBuckets) k) :=
  c3_bucket_localization initBuckets c3buckets c3apt .surgery rfl rfl

/-- Claim C5: the polymorphic equality contract.  A patient compared
against another patient, against a record dict carrying a string `mrn`,
or against a bare string is the same patient exactly when the `mrn`
values match; a (fresh) appointment compared against another appointment
is equal exactly when variant tag and date both match, and compared
against a bare date exactly when the dates match, the variant ignored. -/
theorem c5_polymorphic_equality (p q : Patient) (d : Dict) (m s : String)
    (a b : Appt) (n n2 m2 : Nat)
    (hd : alookup d "mrn" = some (.str m))
    (ha : a.date = PyVal.date n) (hb2 : b.date = PyVal.date n2) :
    (Patient.eq p (.pat q) = .ok (p.mrn == q.mrn)) ∧
    (Patient.eq p (.dict d) = .ok (p.mrn == m)) ∧
    (Patient.eq p (.str s) = .ok (p.mrn == s)) ∧
    (Appt.eq a (.appt b) = true ↔ (n = n2 ∧ a.variant = b.variant)) ∧
    (Appt.eq a (.date m2) = true ↔ n = m2) := by
  refine ⟨rfl, ?_, rfl, ?_, ?_⟩
  · simp only [Patient.eq, dGetE, hd, exceptOk_bind]
    rfl
  · simp [Appt.eq, ha, hb2, pyEq, variant_name_inj, and_comm]
  · simp [Appt.eq, ha, pyEq]

def c5wPatient : Patient :=
  { mrn := "9", first := "iv", last := "ox", birthday := 19700101,
    sex := "male", appointments := [] }

def c5wAppt : Appt :=
  { variant := .periodicExam, date := .date 20210101, asa := PyVal.none,
    note := PyVal.none, flags := [], hasTypeAttr := false }

theorem c5_polymorphic_equality_witness :
    (Patient.eq c5wPatient (.pat c1wPatient)
      = .ok (c5wPatient.mrn == c1wPatient.mrn)) ∧
    (Patient.eq c5wPatient (.dict c2rec1) = .ok (c5wPatient.mrn == "100")) ∧
    (Patient.eq c5wPatient (.str "9") = .ok (c5wPatient.mrn == "9")) ∧
    (Appt.eq c5wAppt (.appt c1wAppt) = true
      ↔ (20210101 = 20210601 ∧ c5wAppt.variant = c1wAppt.variant)) ∧
    (Appt.eq c5wAppt (.date 20210101) = true ↔ 20210101 = 20210101) :=
  c5_polymorphic_equality c5wPatient c1wPatient c2rec1 "100" "9" c5wAppt
    c1wAppt 20210101 20210601 20210101 rfl rfl rfl

/-! Replacement of an appointment in `modify_appointment`. -/

theorem pyEq_refl (v : PyVal) : pyEq v v = true := by
  cases v <;> simp [pyEq]

theorem appt_eq_self (a : Appt) : a.eq (.appt a) = true := by
  simp [Appt.eq, pyEq_refl]

theorem pyListRemove_length (l : List Appt) (t : Appt)
    (h : ∃ x ∈ l, x.eq (.appt t) = true) :
    (pyListRemove l t).length + 1 = l.length := by
  induction l with
  | nil =>
      obtain ⟨x, hx, _⟩ := h
      cases hx
  | cons x rest ih =>
      rw [pyListRemove]
      by_cases hx : x.eq (.appt t) = true
      · rw [if_pos hx]
        rfl
      · rw [if_neg hx]
        obtain ⟨y, hy, hyt⟩ := h
        rcases List.mem_cons.mp hy with hh | hh
        · exact absurd (hh ▸ hyt) hx
        · rw [List.length_cons, List.length_cons, ← ih ⟨y, hh, hyt⟩]

theorem modApptScanAppts_length (exam : Appt) (l l2 : List Appt)
    (h : modApptScanAppts exam l = some l2) : l2.length = l.length := by
  rw [modApptScanAppts] at h
  cases hf : l.find? (fun a => a.eq (.appt exam)) with
  | none => rw [hf] at h; cases h
  | some a =>
      rw [hf] at h
      injection h with h2
      subst h2
      have hmem := List.mem_of_find?_eq_some hf
      have hlen := pyListRemove_length l a ⟨a, hmem, appt_eq_self a⟩
      simp only [List.length_append, List.length_cons, List.length_nil]
      omega

theorem patientEq_ok (q : Patient) (apt : Dict) (val : PyVal)
    (hval : alookup apt "mrn" = some val) :
    Patient.eq q (.dict apt) = .ok (pyEq (.str q.mrn) val) := by
  simp only [Patient.eq, dGetE, hval, exceptOk_bind]

theorem modApptScan_found (exam : Appt) (apt : Dict) (val : PyVal)
    (hval : alookup apt "mrn" = some val)
    (pre : List Patient) (p : Patient) (post : List Patient) (l2 : List Appt)
    (hpre : ∀ q ∈ pre, pyEq (.str q.mrn) val = true →
        modApptScanAppts exam q.appointments = Option.none)
    (hp : pyEq (.str p.mrn) val = true)
    (hl : modApptScanAppts exam p.appointments = some l2) :
    modApptScan exam apt (pre ++ p :: post)
      = .ok (some (pre ++ { p with appointments := l2 } :: post)) := by
  induction pre with
  | nil =>
      rw [List.nil_append, List.nil_append, modApptScan,
        patientEq_ok p apt val hval, exceptOk_bind, if_pos hp, hl]
  | cons q rest ih =>
      have hrest : ∀ q2 ∈ rest, pyEq (.str q2.mrn) val = true →
          modApptScanAppts exam q2.appointments = Option.none :=
        fun q2 hm => hpre q2 (List.mem_cons_of_mem _ hm)
      rw [List.cons_append, List.cons_append, modApptScan,
        patientEq_ok q apt val hval, exceptOk_bind]
      by_cases hb : pyEq (.str q.mrn) val = true
      · rw [if_pos hb, hpre q (List.mem_cons_self q rest) hb,
          ih hrest]
        rfl
      · rw [if_neg hb, ih hrest]
        rfl

theorem modApptScan_none (exam : Appt) (apt : Dict) (val : PyVal)
    (hval : alookup apt "mrn" = some val) (ps : List Patient)
    (hall : ∀ q ∈ ps, pyEq (.str q.mrn) val = true →
        modApptScanAppts exam q.appointments = Option.none) :
    modApptScan exam apt ps = .ok Option.none := by
  induction ps with
  | nil => rfl
  | cons q rest ih =>
      have hrest : ∀ q2 ∈ rest, pyEq (.str q2.mrn) val = true →
          modApptScanAppts exam q2.appointments = Option.none :=
        fun q2 hm => hall q2 (List.mem_cons_of_mem _ hm)
      rw [modApptScan, patientEq_ok q apt val hval, exceptOk_bind]
      by_cases hb : pyEq (.str q.mrn) val = true
      · rw [if_pos hb, hall q (List.mem_cons_self q rest) hb, ih hrest]
        rfl
      · rw [if_neg hb, ih hrest]
        rfl

/-- Claim C6: when the collection holds a patient matching the record's
`mrn` whose appointments contain an entry equal (same variant tag and
date) to the appointment constructed from the record — the first such
patient in scan order — `modify_appointment` removes that entry, appends
the new appointment to that patient, reports success, and the patient's
appointment count is unchanged, every other patient untouched.  When no
patient matches or no matching patient owns an equal entry, the
operation reports not-found non-fatally and the collection is returned
unchanged. -/
theorem c6_modify_appointment (apt : Dict) (exam : Appt) (val : PyVal)
    (hmk : mkApptFromRecord apt = .ok exam)
    (hval : alookup apt "mrn" = some val) :
    (∀ pre p post l2,
      (∀ q ∈ pre, pyEq (.str q.mrn) val = true →
          modApptScanAppts exam q.appointments = Option.none) →
      pyEq (.str p.mrn) val = true →
      modApptScanAppts exam p.appointments = some l2 →
      modify_appointment (pre ++ p :: post) apt
          = .ok (pre ++ { p with appointments := l2 } :: post, true) ∧
        l2.length = p.appointments.length) ∧
    (∀ ps : List Patient,
      (∀ q ∈ ps, pyEq (.str q.mrn) val = true →
          modApptScanAppts exam q.appointments = Option.none) →
      modify_appointment ps apt = .ok (ps, false)) := by
  constructor
  · intro pre p post l2 hpre hp hl
    constructor
    · rw [modify_appointment, hmk, exceptOk_bind,
        modApptScan_found exam apt val hval pre p post l2 hpre hp hl]
      rfl
    · exact modApptScanAppts_length exam p.appointments l2 hl
  · intro ps hall
    rw [modify_appointment, hmk, exceptOk_bind,
      modApptScan_none exam apt val hval ps hall]
    rfl

def c6rec : Dict :=
  [("mrn", .str "5"), ("first", .str "zo"), ("last", .str "qi"),
   ("birthday", .dstr 19950101), ("sex", .str "female"),
   ("_type", .str "PeriodicExam"), ("date", .dstr 20210101),
   ("asa", .str "2")]

def c6exam : Appt :=
  { variant := .periodicExam, date := .date 20210101, asa := .str "2",
    note := PyVal.none, flags := [], hasTypeAttr := false }

def c6old : Appt :=
  { variant := .periodicExam, date := .date 20210101, asa := .str "4",
    note := PyVal.none, flags := [], hasTypeAttr := false }

def c6pat : Patient :=
  { mrn := "5", first := "zo", last := "qi", birthday := 19950101,
    sex := "female", appointments := [c6old] }

theorem c6_modify_appointment_witness :
    (modify_appointment ([] ++ c6pat :: []) c6rec
        = .ok ([] ++ { c6pat with appointments := [c6exam] } :: [], true) ∧
      ([c6exam] : List Appt).length = c6pat.appointments.length) ∧
    modify_appointment [c5wPatient] c6rec = .ok ([c5wPatient], false) :=
  ⟨(c6_modify_appointment c6rec c6exam (.str "5") rfl rfl).1 [] c6pat []
      [c6exam] (by intro q hq; cases hq) (by decide) rfl,
   (c6_modify_appointment c6rec c6exam (.str "5") rfl rfl).2 [c5wPatient]
      (by decide)⟩

/-! Claim C7: the failing input for `modify_patient`. -/

def c7pA : Patient :=
  { mrn := "1", first := "al", last := "ba", birthday := 19800101,
    sex := "male", appointments := [] }

def c7pB : Patient :=
  { mrn := "2", first := "bo", last := "cy", birthday := 19810101,
    sex := "male", appointments := [] }

/-- A full, valid replacement record for patient `"1"` (changed first
name). -/
def c7rec : Dict :=
  [("mrn", .str "1"), ("first", .str "alan"), ("last", .str "ba"),
   ("birthday", .dstr 19800101), ("sex", .str "male")]

/-- Claim C7 names intended behaviour the code does not deliver: on the
two-patient collection `[A, B]` with a valid replacement record for `A`,
the loop removes `A`, appends the replacement, rebinds `person` to that
`Patient` object, keeps iterating the mutated list, reaches the appended
replacement (which matches itself by `mrn`) and subscripts the `Patient`
in the diff — raising `TypeError` instead of completing.  Only when the
matched patient is the last element does the loop stop in time. -/
def c7newA : Patient :=
  { mrn := "1", first := "alan", last := "ba", birthday := 19800101,
    sex := "male", appointments := [] }

theorem c7_modify_patient_crash :
    modify_patient [c7pA, c7pB] c7rec = .error "TypeError" ∧
    modify_patient [c7pB, c7pA] c7rec = .ok [c7pB, c7newA] :=
  ⟨rfl, rfl⟩

/-! Claim C8: `find_patient`. -/

/-- Claim C8 as stated is falsified on the code: for an argument that is
neither a string nor an integer, `find_patient` does not raise — it logs
an error and falls through to the scan, returning the not-found signal
(`None`) as a normal value. -/
theorem c8_find_patient_counterexample :
    find_patient [c7pA] (PyVal.bool true) = .ok Option.none ∧
    isStrOrInt (PyVal.bool true) = false :=
  ⟨rfl, rfl⟩

/-- Claim C8 amended: `find_patient` returns the first patient whose
`mrn` equals a string argument and the not-found signal otherwise; an
integer argument behaves as its decimal string; and it never raises for
any argument — a non-string, non-integer argument is only logged and
yields the not-found signal. -/
theorem c8_find_patient_amended (ps : List Patient) (s : String) (i : Int)
    (v : PyVal) :
    ((∃ p, find_patient ps (.str s) = .ok (some p) ∧ p.mrn = s ∧ p ∈ ps) ∨
      (find_patient ps (.str s) = .ok Option.none ∧ ∀ p ∈ ps, p.mrn ≠ s)) ∧
    find_patient ps (.int i) = find_patient ps (.str (toString i)) ∧
    (isStrOrInt v = false → find_patient ps v = .ok Option.none) := by
  have hstr : ∀ s2, find_patient ps (.str s2)
      = .ok (ps.find? (fun p => pyEq (.str p.mrn) (.str s2))) := fun s2 => rfl
  refine ⟨?_, rfl, ?_⟩
  · cases hf : ps.find? (fun p => pyEq (.str p.mrn) (.str s)) with
    | none =>
        right
        refine ⟨by rw [hstr, hf], ?_⟩
        intro p hp hs
        have := List.find?_eq_none.mp hf p hp
        exact this (by simp [pyEq, hs])
    | some p =>
        left
        refine ⟨p, by rw [hstr, hf], ?_, List.mem_of_find?_eq_some hf⟩
        have := List.find?_some hf
        simpa [pyEq] using this
  · intro hv
    have hnone : ∀ w : PyVal, (∀ s2, w ≠ PyVal.str s2) →
        ps.find? (fun p => pyEq (.str p.mrn) w) = Option.none := by
      intro w hw
      apply List.find?_eq_none.mpr
      intro p hp
      cases w with
      | str s2 => exact absurd rfl (hw s2)
      | none => simp [pyEq]
      | bool b => simp [pyEq]
      | int j => simp [pyEq]
      | dstr n => simp [pyEq]
      | date n => simp [pyEq]
    cases v with
    | str s2 => simp [isStrOrInt] at hv
    | int j => simp [isStrOrInt] at hv
    | none =>
        have h0 : find_patient ps PyVal.none
            = .ok (ps.find? (fun p => pyEq (.str p.mrn) PyVal.none)) := rfl
        rw [h0, hnone PyVal.none (fun s2 h => PyVal.noConfusion h)]
    | bool b =>
        have h0 : find_patient ps (PyVal.bool b)
            = .ok (ps.find? (fun p => pyEq (.str p.mrn) (PyVal.bool b))) := rfl
        rw [h0, hnone (PyVal.bool b) (fun s2 h => PyVal.noConfusion h)]
    | dstr n =>
        have h0 : find_patient ps (PyVal.dstr n)
            = .ok (ps.find? (fun p => pyEq (.str p.mrn) (PyVal.dstr n))) := rfl
        rw [h0, hnone (PyVal.dstr n) (fun s2 h => PyVal.noConfusion h)]
    | date n =>
        have h0 : find_patient ps (PyVal.date n)
            = .ok (ps.find? (fun p => pyEq (.str p.mrn) (PyVal.date n))) := rfl
        rw [h0, hnone (PyVal.date n) (fun s2 h => PyVal.noConfusion h)]

theorem c8_find_patient_amended_witness :
    ((∃ p, find_patient [c7pA] (.str "1") = .ok (some p) ∧ p.mrn = "1" ∧
        p ∈ [c7pA]) ∨
      (find_patient [c7pA] (.str "1") = .ok Option.none ∧
        ∀ p ∈ [c7pA], p.mrn ≠ "1")) ∧
    find_patient [c7pA] (.int 1) = find_patient [c7pA] (.str (toString (1 : Int))) ∧
    (isStrOrInt PyVal.none = false → find_patient [c7pA] PyVal.none
        = .ok Option.none) :=
  c8_find_patient_amended [c7pA] "1" 1 PyVal.none

/-! Claim C9: flag keys in the appointment's flat dictionary. -/

/-- A LimitedExam record that sets no flag at all. -/
def c9rec : Dict := [("date", .dstr 20210101), ("_type", .str "LimitedExam")]

/-- The `abscess` entry of the flat dictionary of the flagless
LimitedExam. -/
def c9run : Except String (Option PyVal) :=
  (mkAppt .limitedExam c9rec).bind
    (fun a => (a.to_dict).map (fun pr => alookup pr.1 "abscess"))

/-- Claim C9 is falsified on the code: the constructors store every flag
attribute unconditionally (`.get` yields `None` for an unset one), and
`to_dict` dumps the whole `__dict__`, so an unset, hence falsy, flag is
still present as a key — here `abscess` appears with value `None`. -/
theorem c9_flag_truthiness_counterexample :
    c9run = .ok (some PyVal.none) ∧ pyTruthy PyVal.none = false :=
  ⟨rfl, rfl⟩

/-- Claim C9 amended: in the flat dictionary produced for an
appointment, every variant-specific flag field is always present as a
key, truthy or not, carrying exactly the value the constructing record
supplied — so an unset optional field resolves to the explicit absent
marker `None` (the `asa`/`note` business-value defaults are bypassed the
same way), never to a default business value. -/
theorem c9_flag_keys (v : Variant) (d : Dict) (a : Appt) (r : Dict)
    (a2 : Appt) (hmk : mkAppt v d = .ok a) (htd : a.to_dict = .ok (r, a2)) :
    (∀ f ∈ v.flagNames, alookup r f = some (dGet d f)) ∧
    alookup r "asa" = some (dGet d "asa") ∧
    alookup r "note" = some (dGet d "note") := by
  rw [mkAppt] at hmk
  cases hdv : dGetE d "date" with
  | error e =>
      rw [hdv, exceptError_bind] at hmk
      exact Except.noConfusion hmk
  | ok dv =>
      rw [hdv, exceptOk_bind] at hmk
      cases hn : strpdate dv with
      | error e =>
          rw [hn, exceptError_bind] at hmk
          exact Except.noConfusion hmk
      | ok n =>
          rw [hn, exceptOk_bind] at hmk
          injection hmk with ha
          have hdate : a.date = PyVal.date n := by rw [← ha]
          have hvar : a.variant = v := by rw [← ha]
          have hasa : a.asa = dGet d "asa" := by rw [← ha]
          have hnote : a.note = dGet d "note" := by rw [← ha]
          have hflags : a.flags
              = v.flagNames.map (fun f => (f, dGet d f)) := by rw [← ha]
          have hfr : isFresh a = true := by rw [isFresh, hdate]
          rw [to_dict_fresh a hfr] at htd
          injection htd with hpair
          injection hpair with hr ha2
          subst hr
          rw [apptAttrs_mutSer a n hdate]
          refine ⟨?_, ?_, ?_⟩
          · intro f hfmem
            rw [← hvar] at hfmem
            obtain ⟨hne1, hne2, hne3, hne4⟩ := flagNames_fresh a.variant f hfmem
            rw [alookup, if_neg hne1, alookup, if_neg hne2, alookup,
              if_neg hne3, alookup_append, hflags]
            rw [hvar] at hfmem
            rw [alookup_map_names v.flagNames (fun f => dGet d f) f hfmem]
          · rw [alookup, if_neg (by decide), alookup, if_pos rfl, hasa]
          · rw [alookup, if_neg (by decide), alookup, if_neg (by decide),
              alookup, if_pos rfl, hnote]

def c9appt : Appt :=
  { variant := .limitedExam, date := .date 20210101, asa := PyVal.none,
    note := PyVal.none,
    flags := Variant.limitedExam.flagNames.map (fun f => (f, PyVal.none)),
    hasTypeAttr := false }

def c9dict : Dict := apptAttrs (mutSer c9appt)

theorem c9_flag_keys_witness :
    (∀ f ∈ Variant.limitedExam.flagNames,
      alookup c9dict f = some (dGet c9rec f)) ∧
    alookup c9dict "asa" = some (dGet c9rec "asa") ∧
    alookup c9dict "note" = some (dGet c9rec "note") :=
  c9_flag_keys .limitedExam c9rec c9appt c9dict (mutSer c9appt) rfl rfl
